import Mathlib

/-! Perry interpreter (`perry.c`): shallow embedding and verified properties.

The C program is a one-file interpreter: a lexer (`get_next_token`), a hash-bucketed
global variable table (`hash`, `get_variable`, `set_variable`), a flat expression
evaluator (`parse_expression`, `evaluate_expression`) and a statement executor
(`execute`), driven by `main`.

Modelling conventions.
* The program text is a list of bytes (`List Nat`); the shared cursor `pos` is
  represented by the suffix of the text that has not been consumed yet.
* `int` is a mathematical integer reduced to 32-bit two's complement after every
  arithmetic operation (`wrap32`), except that dividing `-2147483648` by `-1` traps
  (`Err.ArithmeticTrap`); `unsigned int` is a natural number modulo `2^32`.
* `error(msg)` prints a diagnostic and calls `exit(1)`; it is modelled by a failing
  result that records which message was raised together with the standard output
  and the variable table at that moment.
* Loops that the C code runs on a shared cursor are given explicit fuel where the
  recursion is not structural; running out of fuel is a separate result (`timeout`).
-/

namespace Perry

/-! ## Constants and data model -/

/-- Size of `token_buffer` (`#define MAX_TOKEN_SIZE 256`). -/
def MAX_TOKEN_SIZE : Nat := 256

/-- Number of hash buckets (`#define HASH_SIZE 101`). -/
def HASH_SIZE : Nat := 101

/-- The enumeration `TokenType` of the source, in declaration order. -/
inductive TokenType where
  | T_PRINT | T_SET | T_LOOP | T_IF
  | T_NUMBER | T_STRING | T_ID
  | T_LPAREN | T_RPAREN | T_LBRACE | T_RBRACE | T_SEMICOLON
  | T_EQUALS | T_PLUS | T_MINUS | T_MULTIPLY | T_DIVIDE
  | T_MODULO | T_LESS | T_GREATER | T_EQUAL_COMPARE
  | T_AND | T_OR | T_NOT
  | T_EOF
  deriving DecidableEq, Repr

open TokenType

/-- A `Token`: its type and the two members of the `value` union that the program
reads (`number` for `T_NUMBER`, `string` for `T_STRING` and `T_ID`).  A fresh token
is zeroed by `memset`, which is the default value of both fields. -/
structure Token where
  type : TokenType
  number : Int := 0
  string : List Nat := []
  deriving DecidableEq, Repr

/-- One node of a bucket chain (`struct Variable`, without the `next` pointer). -/
structure Variable where
  name : List Nat
  value : Int
  deriving DecidableEq, Repr

/-- The global table `variables[HASH_SIZE]`: one chain per bucket. -/
abbrev Store := Fin HASH_SIZE → List Variable

/-- The table as `static` initialisation leaves it: every bucket is empty. -/
def empty_store : Store := fun _ => []

/-- Every message that the source passes to `error`, the refusal of an empty file by
`main`, and `ArithmeticTrap`, which is not a call of `error`: the division
`-2147483648 / -1` (or `%`) overflows `int`, the source guards only a zero divisor, and
the process is killed by the divide-error signal (SIGFPE) without any diagnostic. -/
inductive Err where
  | UndefinedVariable
  | AllocationFailed
  | StringTooLong
  | UnterminatedString
  | IdentifierTooLong
  | UnknownCharacter (c : Nat)
  | DivisionByZero
  | ModuloByZero
  | InvalidToken
  | PrintExpectedLParen
  | PrintExpectedRParen
  | PrintExpectedSemicolon
  | SetExpectedName
  | SetExpectedEquals
  | SetExpectedSemicolon
  | LoopExpectedLParen
  | LoopExpectedLBrace
  | LoopExpectedRBrace
  | IfExpectedLParen
  | IfExpectedLBrace
  | UnexpectedToken
  | EmptyFile
  | ArithmeticTrap
  deriving DecidableEq, Repr

/-! ## Machine arithmetic -/

/-- Reduction of an integer to the 32-bit two's complement range. -/
def wrap32 (x : Int) : Int := (x + 2147483648) % 4294967296 - 2147483648

/-- `a + b` on `int`. -/
def int_add (a b : Int) : Int := wrap32 (a + b)

/-- `a - b` on `int`. -/
def int_sub (a b : Int) : Int := wrap32 (a - b)

/-- `a * b` on `int`. -/
def int_mul (a b : Int) : Int := wrap32 (a * b)

/-- `a / b` on `int` for `b` other than zero: the quotient truncated toward zero; the
quotient of `-2147483648` by `-1` does not fit and the division instruction traps. -/
def int_div (a b : Int) : Except Err Int :=
  if a = -2147483648 ∧ b = -1 then .error .ArithmeticTrap
  else .ok (wrap32 (Int.tdiv a b))

/-- `a % b` on `int` for `b` other than zero: the remainder with the sign of the
dividend; it is computed by the same division instruction, which traps on
`-2147483648` by `-1`. -/
def int_mod (a b : Int) : Except Err Int :=
  if a = -2147483648 ∧ b = -1 then .error .ArithmeticTrap
  else .ok (wrap32 (Int.tmod a b))

/-! ## Variable table -/

/-- One round of the `hash` loop: `hash = ((hash << 5) + hash) + c` on `unsigned int`.
The byte `c` is read through a plain `char`, so a byte above 127 is sign-extended
before it is converted to `unsigned int`. -/
def hash_step (h c : Nat) : Nat :=
  ((h <<< 5) + h + (if c < 128 then c else c + (4294967296 - 256))) % 4294967296

/-- The function `hash`: the loop over the bytes of the name starting from 5381, then
the remainder modulo `HASH_SIZE`. -/
def hash (str : List Nat) : Fin HASH_SIZE :=
  ⟨(str.foldl hash_step 5381) % HASH_SIZE, Nat.mod_lt _ (by decide)⟩

/-- The `while (var)` loop of `get_variable` along one chain. -/
def chain_find (name : List Nat) : List Variable → Option Int
  | [] => none
  | var :: next => if var.name = name then some var.value else chain_find name next

/-- The function `get_variable`: the value of the first node of the bucket chain
whose name is `name`, or the failure "Undefined variable". -/
def get_variable (vars : Store) (name : List Nat) : Except Err Int :=
  match chain_find name (vars (hash name)) with
  | some v => .ok v
  | none => .error .UndefinedVariable

/-- The `while (var)` loop of `set_variable` along one chain: `some` of the updated
chain when a node named `name` exists, `none` when the loop runs off the end. -/
def chain_update (name : List Nat) (value : Int) : List Variable → Option (List Variable)
  | [] => none
  | var :: next =>
    if var.name = name then some ({ var with value := value } :: next)
    else (chain_update name value next).map (fun l => var :: l)

/-- The function `set_variable`: overwrite the node named `name` in its bucket, or
push a new node at the head of the bucket. -/
def set_variable (vars : Store) (name : List Nat) (value : Int) : Store :=
  fun i =>
    if i = hash name then
      match chain_update name value (vars i) with
      | some chain => chain
      | none => { name := name, value := value } :: vars i
    else vars i

/-- All nodes of the table, bucket after bucket. -/
def bindings (vars : Store) : List Variable :=
  (List.finRange HASH_SIZE).flatMap vars

/-! ## Expression evaluator -/

/-- The `if`/`else if` chain of `case T_NUMBER` in `evaluate_expression`: the new
value of `result` for the operand value `v` under the pending operator `last_op`. -/
def apply_number (last_op : TokenType) (result v : Int) : Except Err Int :=
  if last_op = T_PLUS then .ok (int_add result v)
  else if last_op = T_MINUS then .ok (int_sub result v)
  else if last_op = T_MULTIPLY then .ok (int_mul result v)
  else if last_op = T_DIVIDE then
    if v = 0 then .error .DivisionByZero else int_div result v
  else if last_op = T_MODULO then
    if v = 0 then .error .ModuloByZero else int_mod result v
  else if last_op = T_EOF then .ok v
  else .ok result

/-- The `if`/`else if` chain of `case T_ID` in `evaluate_expression`: the variable is
read inside the branch that uses it. -/
def apply_id (vars : Store) (last_op : TokenType) (result : Int) (name : List Nat) :
    Except Err Int :=
  if last_op = T_PLUS then (get_variable vars name).map (fun v => int_add result v)
  else if last_op = T_MINUS then (get_variable vars name).map (fun v => int_sub result v)
  else if last_op = T_MULTIPLY then (get_variable vars name).map (fun v => int_mul result v)
  else if last_op = T_DIVIDE then
    (get_variable vars name).bind (fun var_val =>
      if var_val = 0 then .error .DivisionByZero else int_div result var_val)
  else if last_op = T_MODULO then
    (get_variable vars name).bind (fun var_val =>
      if var_val = 0 then .error .ModuloByZero else int_mod result var_val)
  else if last_op = T_EOF then get_variable vars name
  else .ok result

/-- One round of the `while (current)` loop of `evaluate_expression` on the pair
`(result, last_op)`. -/
def eval_step (vars : Store) (st : Int × TokenType) (current : Token) :
    Except Err (Int × TokenType) :=
  match current.type with
  | T_NUMBER => (apply_number st.2 st.1 current.number).map (fun r => (r, T_EOF))
  | T_ID => (apply_id vars st.2 st.1 current.string).map (fun r => (r, T_EOF))
  | T_PLUS => .ok (st.1, current.type)
  | T_MINUS => .ok (st.1, current.type)
  | T_MULTIPLY => .ok (st.1, current.type)
  | T_DIVIDE => .ok (st.1, current.type)
  | T_MODULO => .ok (st.1, current.type)
  | _ => .error .InvalidToken

/-- The `while (current)` loop of `evaluate_expression` from a given `(result, last_op)`. -/
def eval_tokens (vars : Store) : List Token → Int × TokenType → Except Err (Int × TokenType)
  | [], st => .ok st
  | current :: next, st => (eval_step vars st current).bind (eval_tokens vars next)

/-- The function `evaluate_expression`: the loop started with `result = 0` and
`last_op = T_EOF`, returning `result`. -/
def evaluate_expression (vars : Store) (expr : List Token) : Except Err Int :=
  (eval_tokens vars expr (0, T_EOF)).map Prod.fst

/-! ## Lexer -/

/-- The bytes of a text, for writing program texts and keywords as string literals. -/
def bytes (text : String) : List Nat := text.toList.map Char.toNat

/-- The classifier `isspace` of the C locale: space, `\t`, `\n`, `\v`, `\f`, `\r`. -/
def isspace (c : Nat) : Bool := decide (c = 32 ∨ (9 ≤ c ∧ c ≤ 13))

/-- The classifier `isdigit`: `0` to `9`. -/
def isdigit (c : Nat) : Bool := decide (48 ≤ c ∧ c ≤ 57)

/-- The classifier `isalpha` of the C locale: `A` to `Z` and `a` to `z`. -/
def isalpha (c : Nat) : Bool := decide ((65 ≤ c ∧ c ≤ 90) ∨ (97 ≤ c ∧ c ≤ 122))

/-- The classifier `isalnum`: a letter or a digit. -/
def isalnum (c : Nat) : Bool := isalpha c || isdigit c

/-- The loop `while (pos < input_len && isspace(input[pos])) pos++`. -/
def skip_space : List Nat → List Nat
  | [] => []
  | c :: rest => if isspace c then skip_space rest else c :: rest

/-- The digit loop of `get_next_token`: `num = num * 10 + (input[pos] - '0')` while the
cursor is on a digit; returns `num` and the text from the new cursor. -/
def scan_number : List Nat → Int → Int × List Nat
  | [], num => (num, [])
  | c :: rest, num =>
    if isdigit c then scan_number rest (int_add (int_mul num 10) ((c : Int) - 48))
    else (num, c :: rest)

/-- The string loop of `get_next_token`, entered after the opening quote, with the
closing-quote test that follows it: bytes are copied into `token_buffer` until a `"`;
the copy fails once `i >= MAX_TOKEN_SIZE - 1`; running off the text is "Unterminated
string".  Returns the buffer and the text after the closing quote. -/
def scan_string : List Nat → List Nat → Except Err (List Nat × List Nat)
  | [], _ => .error .UnterminatedString
  | c :: rest, buf =>
    if c = 34 then .ok (buf, rest)
    else if buf.length + 1 ≥ MAX_TOKEN_SIZE - 1 then .error .StringTooLong
    else scan_string rest (buf ++ [c])

/-- The identifier loop of `get_next_token`: letters, digits and `_` are copied into
`token_buffer`; the copy fails once `i >= MAX_TOKEN_SIZE - 1`.  Returns the buffer and
the text from the new cursor. -/
def scan_ident : List Nat → List Nat → Except Err (List Nat × List Nat)
  | [], buf => .ok (buf, [])
  | c :: rest, buf =>
    if isalnum c || decide (c = 95) then
      if buf.length + 1 ≥ MAX_TOKEN_SIZE - 1 then .error .IdentifierTooLong
      else scan_ident rest (buf ++ [c])
    else .ok (buf, c :: rest)

/-- The result of `strdup(token_buffer)`: the buffer up to its first NUL byte. -/
def strdup (buf : List Nat) : List Nat := buf.takeWhile (fun c => decide (c ≠ 0))

/-- The `strcmp` chain of `get_next_token` against the four keywords. -/
def classify_word (buf : List Nat) : Token :=
  if buf = bytes "yap" then { type := T_PRINT }
  else if buf = bytes "sigma" then { type := T_SET }
  else if buf = bytes "fr_fr" then { type := T_LOOP }
  else if buf = bytes "based" then { type := T_IF }
  else { type := T_ID, string := buf }

/-- The final `switch (c)` of `get_next_token`, after `pos++`; `rest` is the text after
the byte `c`. -/
def single_char (c : Nat) (rest : List Nat) : Except Err (Token × List Nat) :=
  if c = 40 then .ok ({ type := T_LPAREN }, rest)
  else if c = 41 then .ok ({ type := T_RPAREN }, rest)
  else if c = 123 then .ok ({ type := T_LBRACE }, rest)
  else if c = 125 then .ok ({ type := T_RBRACE }, rest)
  else if c = 59 then .ok ({ type := T_SEMICOLON }, rest)
  else if c = 61 then
    match rest with
    | 61 :: rest2 => .ok ({ type := T_EQUAL_COMPARE }, rest2)
    | _ => .ok ({ type := T_EQUALS }, rest)
  else if c = 43 then .ok ({ type := T_PLUS }, rest)
  else if c = 45 then .ok ({ type := T_MINUS }, rest)
  else if c = 42 then .ok ({ type := T_MULTIPLY }, rest)
  else if c = 47 then .ok ({ type := T_DIVIDE }, rest)
  else if c = 37 then .ok ({ type := T_MODULO }, rest)
  else if c = 60 then .ok ({ type := T_LESS }, rest)
  else if c = 62 then .ok ({ type := T_GREATER }, rest)
  else .error (.UnknownCharacter c)

/-- The function `get_next_token` on the text from the cursor: the token and the text
from the new cursor, or the lexical failure. -/
def get_next_token (input : List Nat) : Except Err (Token × List Nat) :=
  match skip_space input with
  | [] => .ok ({ type := T_EOF }, [])
  | c :: rest =>
    if isdigit c then
      .ok ({ type := T_NUMBER, number := (scan_number (c :: rest) 0).1 },
        (scan_number (c :: rest) 0).2)
    else if c = 34 then
      (scan_string rest []).map
        (fun r => ({ type := T_STRING, string := strdup r.1 }, r.2))
    else if isalpha c then
      (scan_ident (c :: rest) []).map (fun r => (classify_word r.1, r.2))
    else single_char c rest

/-! ## Statement executor -/

/-- The interpreter state: the text from the cursor `pos`, the global `current_token`,
the table `variables` (field `vars`) and the bytes written to standard output so far. -/
structure State where
  input : List Nat
  current_token : Token
  vars : Store
  output : List Nat

/-- The result of a piece of the interpreter: a value, a failure (a call of `error`
with its message, or the division trap, with the table and the `printf` output at that
moment), or exhausted fuel. -/
inductive Res (α : Type) where
  | ok (a : α)
  | fail (e : Err) (vars : Store) (output : List Nat)
  | timeout

/-- Sequencing of interpreter pieces: a failure or a timeout ends the run. -/
def Res.bind {α β : Type} (r : Res α) (f : α → Res β) : Res β :=
  match r with
  | .ok a => f a
  | .fail e vars out => .fail e vars out
  | .timeout => .timeout

/-- The run ends in state `s` with `e`: a call of `error(msg)`, or, for
`ArithmeticTrap`, the death of the process in the division. -/
def raise {α : Type} (e : Err) (s : State) : Res α := .fail e s.vars s.output

/-- The statement `current_token = get_next_token();`. -/
def advance (s : State) : Res State :=
  match get_next_token s.input with
  | .ok (tok, rest) => .ok { s with input := rest, current_token := tok }
  | .error e => raise e s

/-- Whether a token type ends expression collection: `;`, `)` or end of input. -/
def is_terminator (t : TokenType) : Bool :=
  decide (t = T_SEMICOLON) || decide (t = T_RPAREN) || decide (t = T_EOF)

/-- The `while` loop of `parse_expression`: the current token is appended to the list
and replaced by the next one until it is `;`, `)` or end of input. -/
def parse_expression_loop : Nat → State → List Token → Res (List Token × State)
  | 0, _, _ => .timeout
  | fuel + 1, s, expr =>
    if is_terminator s.current_token.type then .ok (expr, s)
    else (advance s).bind (fun s1 => parse_expression_loop fuel s1 (expr ++ [s.current_token]))

/-- The function `parse_expression`.  Every round but the last consumes at least one
byte of text, so the loop is run with fuel `length + 2`. -/
def parse_expression (s : State) : Res (List Token × State) :=
  parse_expression_loop (s.input.length + 2) s []

/-- The bytes that `printf("%d", v)` writes. -/
def print_int (v : Int) : List Nat :=
  if v < 0 then 45 :: (Nat.toDigits 10 (-v).toNat).map Char.toNat
  else (Nat.toDigits 10 v.toNat).map Char.toNat

/-- The call `evaluate_expression(expr)` inside a statement handler: a failure of the
evaluator ends the run in the state of the call. -/
def evaluate (s : State) (expr : List Token) : Res Int :=
  match evaluate_expression s.vars expr with
  | .ok v => .ok v
  | .error e => raise e s

/-- The body of `case T_PRINT` of `execute`, up to its `break`. -/
def execute_print (s : State) : Res State :=
  (advance s).bind (fun s1 =>
  if s1.current_token.type ≠ T_LPAREN then raise .PrintExpectedLParen s1 else
  (advance s1).bind (fun s2 =>
  (if s2.current_token.type = T_STRING then
      Res.ok { s2 with output := s2.output ++ s2.current_token.string ++ [10] }
    else
      (parse_expression s2).bind (fun r =>
      (evaluate r.2 r.1).bind (fun result =>
      Res.ok { r.2 with output := r.2.output ++ print_int result ++ [10] }))).bind (fun s3 =>
  if s3.current_token.type ≠ T_RPAREN then raise .PrintExpectedRParen s3 else
  (advance s3).bind (fun s4 =>
  if s4.current_token.type ≠ T_SEMICOLON then raise .PrintExpectedSemicolon s4 else
  advance s4))))

/-- The body of `case T_SET` of `execute`, up to its `break`. -/
def execute_set (s : State) : Res State :=
  (advance s).bind (fun s1 =>
  if s1.current_token.type ≠ T_ID then raise .SetExpectedName s1 else
  (advance s1).bind (fun s2 =>
  if s2.current_token.type ≠ T_EQUALS then raise .SetExpectedEquals s2 else
  (advance s2).bind (fun s3 =>
  (parse_expression s3).bind (fun r =>
  (evaluate r.2 r.1).bind (fun value =>
  let s4 : State :=
    { r.2 with vars := set_variable r.2.vars s1.current_token.string value }
  if s4.current_token.type ≠ T_SEMICOLON then raise .SetExpectedSemicolon s4 else
  advance s4)))))

/-- The loop `while (current_token->type != T_RBRACE) execute();` that runs a block
body (in `case T_LOOP` it is written with the alias `loop_body`). -/
def run_block (exec : State → Res State) : Nat → State → Res State
  | 0, _ => .timeout
  | fuel + 1, s =>
    if s.current_token.type ≠ T_RBRACE then (exec s).bind (run_block exec fuel)
    else .ok s

/-- The loop `while (current_token->type != T_RBRACE) current_token = get_next_token();`
of `case T_IF`. -/
def skip_block : Nat → State → Res State
  | 0, _ => .timeout
  | fuel + 1, s =>
    if s.current_token.type ≠ T_RBRACE then (advance s).bind (skip_block fuel)
    else .ok s

/-- The loop `while (evaluate_expression(condition_expr)) { ... }` of `case T_LOOP`:
the body is run to its closing brace, then the condition is collected again from the
text that follows. -/
def loop_rounds (exec : State → Res State) : Nat → List Token → State → Res State
  | 0, _, _ => .timeout
  | fuel + 1, condition_expr, s =>
    (evaluate s condition_expr).bind (fun c =>
    if c ≠ 0 then
      (run_block exec fuel s).bind (fun s1 =>
      (advance s1).bind (fun s2 =>
      (parse_expression s2).bind (fun r => loop_rounds exec fuel r.1 r.2)))
    else .ok s)

/-- The body of `case T_LOOP` of `execute`, up to its `break`; `exec` is the nested
call `execute()`. -/
def execute_loop (exec : State → Res State) (fuel : Nat) (s : State) : Res State :=
  (advance s).bind (fun s1 =>
  if s1.current_token.type ≠ T_LPAREN then raise .LoopExpectedLParen s1 else
  (advance s1).bind (fun s2 =>
  (parse_expression s2).bind (fun r =>
  if r.2.current_token.type ≠ T_LBRACE then raise .LoopExpectedLBrace r.2 else
  (advance r.2).bind (fun s3 =>
  (loop_rounds exec fuel r.1 s3).bind (fun s4 =>
  if s4.current_token.type ≠ T_RBRACE then raise .LoopExpectedRBrace s4 else
  advance s4)))))

/-- The body of `case T_IF` of `execute`, up to its `break`; `exec` is the nested call
`execute()`. -/
def execute_if (exec : State → Res State) (fuel : Nat) (s : State) : Res State :=
  (advance s).bind (fun s1 =>
  if s1.current_token.type ≠ T_LPAREN then raise .IfExpectedLParen s1 else
  (advance s1).bind (fun s2 =>
  (parse_expression s2).bind (fun r =>
  (evaluate r.2 r.1).bind (fun condition_result =>
  if r.2.current_token.type ≠ T_LBRACE then raise .IfExpectedLBrace r.2 else
  (advance r.2).bind (fun s3 =>
  (if condition_result ≠ 0 then run_block exec fuel s3 else skip_block fuel s3).bind
    advance)))))

/-- The function `execute`: the loop `while (current_token->type != T_EOF)` with its
`switch`; `fuel` bounds the number of rounds and the depth of nested calls. -/
def execute : Nat → State → Res State
  | 0, _ => .timeout
  | fuel + 1, s =>
    if s.current_token.type = T_EOF then .ok s
    else
      match s.current_token.type with
      | T_PRINT => (execute_print s).bind (execute fuel)
      | T_SET => (execute_set s).bind (execute fuel)
      | T_LOOP => (execute_loop (execute fuel) fuel s).bind (execute fuel)
      | T_IF => (execute_if (execute fuel) fuel s).bind (execute fuel)
      | _ => raise .UnexpectedToken s

/-- The loop of `main` that cuts trailing white space off the text. -/
def trim_trailing (text : List Nat) : List Nat :=
  (text.reverse.dropWhile isspace).reverse

/-- The state in which `main` starts the interpreter on `text`: the cursor at the
start, the table empty, nothing printed (the current token is not yet set). -/
def initial_state (text : List Nat) : State :=
  { input := text, current_token := { type := T_EOF }, vars := empty_store, output := [] }

/-- The interpreter proper, as `main` runs it on the trimmed text: the first token is
read, then `execute` runs. -/
def interpret (fuel : Nat) (text : List Nat) : Res State :=
  (advance (initial_state text)).bind (execute fuel)

/-- The function `main` from the point where the file content `text` has been read:
an empty file is refused with status 1 before anything runs (recorded as the failure
`EmptyFile`); otherwise the trimmed text is interpreted. -/
def main (fuel : Nat) (text : List Nat) : Res State :=
  if text = [] then .fail .EmptyFile empty_store []
  else interpret fuel (trim_trailing text)

/-- The exit status of the process: 0 when `main` returns normally, 1 after `error`
or the refusal of an empty file; none when the process does not exit: the run does
not end within the fuel, or the process is killed by the division trap. -/
def exit_status : Res State → Option Nat
  | .ok _ => some 0
  | .fail .ArithmeticTrap _ _ => none
  | .fail _ _ _ => some 1
  | .timeout => none

/-- The standard output of a run that ended by returning from `main` or by `exit`,
both of which flush what `printf` has written; a process killed by the division trap
flushes nothing, so what reaches the output then is not determined. -/
def stdout_of : Res State → Option (List Nat)
  | .ok s => some s.output
  | .fail .ArithmeticTrap _ _ => none
  | .fail _ _ out => some out
  | .timeout => none

/-! ## Reference semantics of flat expressions (from the specification) -/

/-- The five arithmetic operator tokens `+ - * / %`. -/
def is_arith (op : TokenType) : Prop :=
  op = T_PLUS ∨ op = T_MINUS ∨ op = T_MULTIPLY ∨ op = T_DIVIDE ∨ op = T_MODULO

instance (op : TokenType) : Decidable (is_arith op) := by
  unfold is_arith; infer_instance

/-- Specification side: the application `a op b` of an arithmetic operator to two
32-bit signed integers, with truncating division and remainder. -/
def spec_binop (op : TokenType) (a b : Int) : Int :=
  match op with
  | T_PLUS => wrap32 (a + b)
  | T_MINUS => wrap32 (a - b)
  | T_MULTIPLY => wrap32 (a * b)
  | T_DIVIDE => wrap32 (Int.tdiv a b)
  | T_MODULO => wrap32 (Int.tmod a b)
  | _ => a

/-- Specification side: the strict left-to-right fold `(((v0 op1 v1) op2 v2) ... opk vk)`. -/
def spec_left_fold (v0 : Int) (rest : List (TokenType × Int)) : Int :=
  rest.foldl (fun acc p => spec_binop p.1 acc p.2) v0

/-- The integer literal token with value `v`. -/
def num_tok (v : Int) : Token := { type := T_NUMBER, number := v }

/-- The token of a keyword, punctuation mark or operator. -/
def op_tok (op : TokenType) : Token := { type := op }

/-- The identifier token with name `name`. -/
def id_tok (name : List Nat) : Token := { type := T_ID, string := name }

/-- The token sequence `v0 op1 v1 ... opk vk`. -/
def flat_expr (v0 : Int) (rest : List (TokenType × Int)) : List Token :=
  num_tok v0 :: rest.flatMap (fun p => [op_tok p.1, num_tok p.2])

/-! ## Reachable tables -/

/-- The table after a finite sequence of `set_variable` calls from the empty table. -/
def store_after (calls : List (List Nat × Int)) : Store :=
  calls.foldl (fun vars call => set_variable vars call.1 call.2) empty_store

/-- A name is bound when some node of the table carries it. -/
def is_bound (vars : Store) (name : List Nat) : Prop :=
  ∃ b ∈ bindings vars, b.name = name

instance (vars : Store) (name : List Nat) : Decidable (is_bound vars name) := by
  unfold is_bound; infer_instance

/-- Well-formedness of the table: every node sits in the bucket of its name and no
chain repeats a name. -/
def store_wf (vars : Store) : Prop :=
  (∀ i, ∀ b ∈ vars i, hash b.name = i) ∧ (∀ i, ((vars i).map Variable.name).Nodup)

instance (vars : Store) : Decidable (store_wf vars) := by
  unfold store_wf; infer_instance

/-! ## Vocabulary for statements about runs -/

/-- The value of an operand token: the literal value of a number, the stored value of
a bound identifier; nothing for an unbound identifier or any other token. -/
def operand_value (vars : Store) (tok : Token) : Option Int :=
  match tok.type with
  | T_NUMBER => some tok.number
  | T_ID => chain_find tok.string (vars (hash tok.string))
  | _ => none

/-- A table holding `x = 1` only, for concrete runs. -/
def sample_store : Store := set_variable empty_store (bytes "x") 1

/-- A state in the middle of a run: `text` remains to be read, `tok` is the current
token, the table is `sample_store` and `a` and a newline have been printed. -/
def sample_state (tok : Token) (text : String) : State :=
  { input := bytes text, current_token := tok, vars := sample_store, output := bytes "a\n" }

/-- A byte that the identifier loop accepts: a letter, a digit or `_`. -/
def is_ident_byte (c : Nat) : Bool := isalnum c || decide (c = 95)

/-- An identifier as the lexer reads one: a letter-led run of letters, digits and `_`. -/
def is_identifier (x : List Nat) : Prop :=
  x.head?.any isalpha = true ∧ ∀ d ∈ x, is_ident_byte d = true

instance (x : List Nat) : Decidable (is_identifier x) := by
  unfold is_identifier; infer_instance

/-- The four keyword spellings. -/
def is_keyword (x : List Nat) : Prop :=
  x = bytes "yap" ∨ x = bytes "sigma" ∨ x = bytes "fr_fr" ∨ x = bytes "based"

instance (x : List Nat) : Decidable (is_keyword x) := by
  unfold is_keyword; infer_instance

/-- A decimal literal: a non-empty run of digits. -/
def is_literal (ds : List Nat) : Prop := ds ≠ [] ∧ ∀ d ∈ ds, isdigit d = true

instance (ds : List Nat) : Decidable (is_literal ds) := by
  unfold is_literal; infer_instance

/-- The number that a run of digits denotes, continuing from `acc`. -/
def decimal_from (acc : Nat) (ds : List Nat) : Nat :=
  ds.foldl (fun a d => a * 10 + (d - 48)) acc

/-- The number that a decimal literal denotes. -/
def decimal_value (ds : List Nat) : Nat := decimal_from 0 ds

/-- The program text `sigma x = n; yap(x);` for the identifier `x` and the literal `ds`. -/
def assign_print_program (x ds : List Nat) : List Nat :=
  bytes "sigma " ++ (x ++ (bytes " = " ++ (ds ++ (bytes "; yap(" ++ (x ++ bytes ");")))))

/-- The thirteen bytes that the final `switch` of `get_next_token` accepts:
`( ) { } ; = + - * / % < >`. -/
def is_punct (c : Nat) : Bool :=
  decide (c ∈ [40, 41, 123, 125, 59, 61, 43, 45, 42, 47, 37, 60, 62])

/-- A byte that belongs to no token: not white space, a digit, a letter, `_`, the
string quote, or a byte of the final `switch`. -/
def is_unknown (c : Nat) : Prop :=
  isspace c = false ∧ isdigit c = false ∧ isalpha c = false ∧ c ≠ 95 ∧ c ≠ 34 ∧
    is_punct c = false

instance (c : Nat) : Decidable (is_unknown c) := by
  unfold is_unknown; infer_instance

/-- The state `s` when the text continues with `more` behind what `s` has left. -/
def extend_input (more : List Nat) (s : State) : State :=
  { s with input := s.input ++ more }

/-- The token kinds that `evaluate_expression` accepts: an integer literal, an
identifier, or one of the five arithmetic operators. -/
def is_expr_token (t : TokenType) : Prop :=
  t = T_NUMBER ∨ t = T_ID ∨ is_arith t

instance (t : TokenType) : Decidable (is_expr_token t) := by
  unfold is_expr_token; infer_instance

/-- The failures that `get_next_token` raises. -/
def is_lexical_error : Err → Bool
  | .StringTooLong => true
  | .UnterminatedString => true
  | .IdentifierTooLong => true
  | .UnknownCharacter _ => true
  | _ => false

/-- The failures that `evaluate_expression` raises (through `get_variable` for an
undefined variable). -/
def is_evaluation_error : Err → Bool
  | .UndefinedVariable => true
  | .DivisionByZero => true
  | .ModuloByZero => true
  | .InvalidToken => true
  | _ => false

/-- The failures "Expected ..." that the statement handlers raise. -/
def is_expected_error : Err → Bool
  | .PrintExpectedLParen => true
  | .PrintExpectedRParen => true
  | .PrintExpectedSemicolon => true
  | .SetExpectedName => true
  | .SetExpectedEquals => true
  | .SetExpectedSemicolon => true
  | .LoopExpectedLParen => true
  | .LoopExpectedLBrace => true
  | .LoopExpectedRBrace => true
  | .IfExpectedLParen => true
  | .IfExpectedLBrace => true
  | _ => false

/-- The executor without a fuel argument: `execute` with the fuel that the length of
the remaining text makes sufficient. -/
def execute_total (s : State) : Res State := execute (s.input.length + 2) s

/-- The spellings that the final `switch` of `get_next_token` handles, each with its
token type: twelve single bytes and the two-byte `==`. -/
def lexed_spellings : List (List Nat × TokenType) :=
  [(bytes "(", T_LPAREN), (bytes ")", T_RPAREN), (bytes "\x7b", T_LBRACE),
   (bytes "\x7d", T_RBRACE), (bytes ";", T_SEMICOLON), (bytes "=", T_EQUALS),
   (bytes "==", T_EQUAL_COMPARE), (bytes "+", T_PLUS), (bytes "-", T_MINUS),
   (bytes "*", T_MULTIPLY), (bytes "/", T_DIVIDE), (bytes "%", T_MODULO),
   (bytes "<", T_LESS), (bytes ">", T_GREATER)]

/-- Whether the text `rest` starts with the byte `c`. -/
def starts_with (c : Nat) (rest : List Nat) : Prop := rest.head? = some c

instance (c : Nat) (rest : List Nat) : Decidable (starts_with c rest) := by
  unfold starts_with; infer_instance

/-- The program whose conditional divides `-2147483648` by `-1` in its condition. -/
def trap_in_condition : List Nat :=
  bytes "sigma m = 0 - 1; based (0 - 2147483647 - 1 / m) \x7b yap(1); \x7d"

/-- The program that prints 7 and then divides `-2147483648` by `-1`. -/
def trap_after_output : List Nat :=
  bytes "sigma m = 0 - 1; yap(7); yap(0 - 2147483647 - 1 / m);"

/-- The run `R` of a piece of the interpreter on a text continued by the unknown
character `c`, against the run `L` of the same piece on the text alone (`st` reads the
state off a result, `ex` continues its text): while `L` has text left the two agree;
once `L` reads the end of its text, `R` fails on `c`; a failure of `L` other than
"Unterminated string" either is the failure of `R` too, or `R` has failed on `c`
with the output of `L`, possibly without a last line printed by `L` afterwards. -/
def extends_run {α : Type} (st : α → State) (ex : α → α) (c : Nat) (L R : Res α) : Prop :=
  match L with
  | .ok x =>
    ((st x).current_token.type ≠ T_EOF ∧ R = .ok (ex x)) ∨
    ((st x).current_token.type = T_EOF ∧
      R = .fail (.UnknownCharacter c) (st x).vars (st x).output)
  | .fail e v o =>
    e = .UnterminatedString ∨ R = .fail e v o ∨
      ∃ v2 o2, R = .fail (.UnknownCharacter c) v2 o2 ∧
        (o = o2 ∨ ∃ n : Int, o = o2 ++ print_int n ++ [10])
  | .timeout => ∀ x, R ≠ .ok x

/-- The extension of a result of `parse_expression`. -/
def extend_parsed (more : List Nat) (r : List Token × State) : List Token × State :=
  (r.1, extend_input more r.2)

/-! ## Properties of the evaluator -/

theorem eval_tokens_append (vars : Store) (xs ys : List Token) (st : Int × TokenType) :
    eval_tokens vars (xs ++ ys) st = (eval_tokens vars xs st).bind (eval_tokens vars ys) := by
  induction xs generalizing st with
  | nil => rfl
  | cons x xs ih =>
    simp only [List.cons_append, eval_tokens]
    cases h : eval_step vars st x with
    | error e => rfl
    | ok st1 => simpa [Except.bind] using ih st1

theorem eval_step_op (vars : Store) (st : Int × TokenType) (op : TokenType)
    (h : is_arith op) : eval_step vars st (op_tok op) = .ok (st.1, op) := by
  rcases h with h | h | h | h | h <;> subst h <;> rfl

theorem apply_number_arith (op : TokenType) (a b : Int) (h : is_arith op)
    (hz : (op = T_DIVIDE ∨ op = T_MODULO) → b ≠ 0)
    (ht : (op = T_DIVIDE ∨ op = T_MODULO) → ¬ (a = -2147483648 ∧ b = -1)) :
    apply_number op a b = .ok (spec_binop op a b) := by
  rcases h with h | h | h | h | h <;> subst h
  · rfl
  · rfl
  · rfl
  · show (if b = 0 then Except.error Err.DivisionByZero else int_div a b)
      = Except.ok (wrap32 (Int.tdiv a b))
    rw [if_neg (hz (Or.inl rfl))]
    unfold int_div
    rw [if_neg (ht (Or.inl rfl))]
  · show (if b = 0 then Except.error Err.ModuloByZero else int_mod a b)
      = Except.ok (wrap32 (Int.tmod a b))
    rw [if_neg (hz (Or.inr rfl))]
    unfold int_mod
    rw [if_neg (ht (Or.inr rfl))]

theorem apply_number_trap (op : TokenType) (h : op = T_DIVIDE ∨ op = T_MODULO) :
    apply_number op (-2147483648) (-1) = .error .ArithmeticTrap := by
  rcases h with h | h <;> subst h <;> rfl

theorem eval_pairs_fold (vars : Store) (rest : List (TokenType × Int)) (acc : Int)
    (hops : ∀ p ∈ rest, is_arith p.1)
    (hdiv : ∀ p ∈ rest, (p.1 = T_DIVIDE ∨ p.1 = T_MODULO) → p.2 ≠ 0)
    (hsafe : ∀ pre p post, rest = pre ++ p :: post → (p.1 = T_DIVIDE ∨ p.1 = T_MODULO) →
      ¬ (spec_left_fold acc pre = -2147483648 ∧ p.2 = -1)) :
    eval_tokens vars (rest.flatMap (fun p => [op_tok p.1, num_tok p.2])) (acc, T_EOF)
      = .ok (spec_left_fold acc rest, T_EOF) := by
  induction rest generalizing acc with
  | nil => rfl
  | cons p rest ih =>
    have hp := hops p (List.mem_cons_self _ _)
    have hd := hdiv p (List.mem_cons_self _ _)
    have hs := hsafe [] p rest rfl
    have hstep : eval_step vars (acc, p.1) (num_tok p.2)
        = .ok (spec_binop p.1 acc p.2, T_EOF) := by
      show (apply_number p.1 acc p.2).map (fun r => (r, T_EOF)) = _
      rw [apply_number_arith p.1 acc p.2 hp hd hs]; rfl
    have htail := ih (spec_binop p.1 acc p.2)
      (fun q hq => hops q (List.mem_cons_of_mem _ hq))
      (fun q hq => hdiv q (List.mem_cons_of_mem _ hq))
      (fun pre q post hq => hsafe (p :: pre) q post (by rw [hq]; rfl))
    show eval_tokens vars (op_tok p.1 :: num_tok p.2 ::
      rest.flatMap (fun p => [op_tok p.1, num_tok p.2])) (acc, T_EOF) = _
    simp only [eval_tokens]
    rw [eval_step_op vars _ p.1 hp]
    simp only [Except.bind]
    rw [hstep]
    simp only [Except.bind]
    rw [htail]
    rfl

/-- C1: on a token sequence `v0 op1 v1 ... opk vk` of integer literals and arithmetic
operators in which no divisor is zero and no `/` or `%` has the running result
`-2147483648` as its left operand and `-1` as its right operand, `evaluate_expression`
returns the strict left-to-right fold over 32-bit signed integers; in particular
`[a, op, b]` with `b ≠ 0` yields `a op b`, unless `op` is `/` or `%`, `a = -2147483648`
and `b = -1`.  At that input the source divides without a guard and the process is
killed by the division trap: no value is returned. -/
theorem C1_evaluate_left_to_right (vars : Store) (v0 : Int) (rest : List (TokenType × Int))
    (hops : ∀ p ∈ rest, is_arith p.1)
    (hdiv : ∀ p ∈ rest, (p.1 = T_DIVIDE ∨ p.1 = T_MODULO) → p.2 ≠ 0)
    (hsafe : ∀ pre p post, rest = pre ++ p :: post → (p.1 = T_DIVIDE ∨ p.1 = T_MODULO) →
      ¬ (spec_left_fold v0 pre = -2147483648 ∧ p.2 = -1)) :
    evaluate_expression vars (flat_expr v0 rest) = .ok (spec_left_fold v0 rest) ∧
    (∀ (a b : Int) (op : TokenType), is_arith op → b ≠ 0 →
      ¬ ((op = T_DIVIDE ∨ op = T_MODULO) ∧ a = -2147483648 ∧ b = -1) →
      evaluate_expression vars [num_tok a, op_tok op, num_tok b] = .ok (spec_binop op a b)) ∧
    (∀ op : TokenType, op = T_DIVIDE ∨ op = T_MODULO →
      evaluate_expression vars [num_tok (-2147483648), op_tok op, num_tok (-1)]
        = .error .ArithmeticTrap) := by
  have main : ∀ (w : Int) (r : List (TokenType × Int)), (∀ p ∈ r, is_arith p.1) →
      (∀ p ∈ r, (p.1 = T_DIVIDE ∨ p.1 = T_MODULO) → p.2 ≠ 0) →
      (∀ pre p post, r = pre ++ p :: post → (p.1 = T_DIVIDE ∨ p.1 = T_MODULO) →
        ¬ (spec_left_fold w pre = -2147483648 ∧ p.2 = -1)) →
      evaluate_expression vars (flat_expr w r) = .ok (spec_left_fold w r) := by
    intro w r h1 h2 h3
    simp only [evaluate_expression, flat_expr, eval_tokens]
    have h0 : eval_step vars (0, T_EOF) (num_tok w) = .ok (w, T_EOF) := rfl
    rw [h0]
    simp only [Except.bind]
    rw [eval_pairs_fold vars r w h1 h2 h3]
    rfl
  refine ⟨main v0 rest hops hdiv hsafe, ?_, ?_⟩
  · intro a b op hop hb hab
    have h := main a [(op, b)] (by simpa using hop) (by simpa using fun _ => hb) (by
      intro pre p post hsplit hd
      rcases pre with _ | ⟨p0, pre⟩
      · simp only [List.nil_append, List.cons.injEq] at hsplit
        obtain ⟨rfl, -⟩ := hsplit
        exact fun hc => hab ⟨hd, hc.1, hc.2⟩
      · simp at hsplit)
    simpa [flat_expr, spec_left_fold] using h
  · intro op hop
    rcases hop with h | h <;> subst h <;> rfl

/-- C1 witness: `2 + 3 * 4` evaluates to 20 (and not to 14), and `7 / 2 % 3 - 9`
evaluates to `-9`. -/
theorem C1_evaluate_left_to_right_witness :
    (evaluate_expression empty_store
        (flat_expr 2 [(T_PLUS, 3), (T_MULTIPLY, 4)]) = .ok 20 ∧
      spec_left_fold 2 [(T_PLUS, 3), (T_MULTIPLY, 4)] = 20 ∧
      flat_expr 2 [(T_PLUS, 3), (T_MULTIPLY, 4)]
        = [num_tok 2, op_tok T_PLUS, num_tok 3, op_tok T_MULTIPLY, num_tok 4]) ∧
    evaluate_expression empty_store
        [num_tok 7, op_tok T_DIVIDE, num_tok 2, op_tok T_MODULO, num_tok 3,
          op_tok T_MINUS, num_tok 9] = .ok (-9) :=
  ⟨⟨(C1_evaluate_left_to_right empty_store 2 [(T_PLUS, 3), (T_MULTIPLY, 4)]
      (by decide) (by decide) (by
        intro pre p post h hd
        have hm : p ∈ [(T_PLUS, (3 : Int)), (T_MULTIPLY, 4)] := by rw [h]; simp
        simp only [List.mem_cons, List.mem_singleton, List.not_mem_nil, or_false] at hm
        rcases hm with rfl | rfl <;> simp at hd)).1, by decide, by decide⟩,
   (C1_evaluate_left_to_right empty_store 7 [(T_DIVIDE, 2), (T_MODULO, 3), (T_MINUS, 9)]
      (by decide) (by decide) (by
        intro pre p post h hd hc
        have hm : p ∈ [(T_DIVIDE, (2 : Int)), (T_MODULO, 3), (T_MINUS, 9)] := by rw [h]; simp
        simp only [List.mem_cons, List.mem_singleton, List.not_mem_nil, or_false] at hm
        rcases hm with rfl | rfl | rfl <;> simp at hc)).1⟩

/-! ## Properties of the variable table -/

theorem chain_find_update_some (name : List Nat) (value : Int) (chain updated : List Variable)
    (h : chain_update name value chain = some updated) :
    chain_find name updated = some value := by
  induction chain generalizing updated with
  | nil => simp [chain_update] at h
  | cons var next ih =>
    by_cases hn : var.name = name
    · simp only [chain_update, if_pos hn, Option.some.injEq] at h
      subst h
      simp [chain_find, hn]
    · simp only [chain_update, if_neg hn, Option.map_eq_some'] at h
      obtain ⟨l, hl, rfl⟩ := h
      simp [chain_find, hn, ih l hl]

theorem get_set_same (vars : Store) (name : List Nat) (value : Int) :
    get_variable (set_variable vars name value) name = .ok value := by
  unfold get_variable set_variable
  simp only [if_true]
  cases h : chain_update name value (vars (hash name)) with
  | some chain => simp [chain_find_update_some name value _ chain h]
  | none => simp [chain_find]

/-- C7: reading a name immediately after `set_variable(n, v)` returns `v`, and after a
second `set_variable(n, w)` it returns `w`; in particular after `x = 1` then `x = 2`
from the empty table, reading `x` yields 2, and the program
`sigma x = 1; sigma x = 2; yap(x);` prints 2. -/
theorem C7_get_after_set (vars : Store) (n : List Nat) (v w : Int) :
    get_variable (set_variable vars n v) n = .ok v ∧
    get_variable (set_variable (set_variable vars n v) n w) n = .ok w ∧
    get_variable (set_variable (set_variable empty_store (bytes "x") 1) (bytes "x") 2)
      (bytes "x") = .ok 2 ∧
    stdout_of (main 4 (bytes "sigma x = 1; sigma x = 2; yap(x);")) = some (bytes "2\n") :=
  ⟨get_set_same vars n v, get_set_same _ n w, get_set_same _ _ 2, rfl⟩

theorem chain_update_names (name : List Nat) (value : Int) (chain updated : List Variable)
    (h : chain_update name value chain = some updated) :
    updated.map Variable.name = chain.map Variable.name := by
  induction chain generalizing updated with
  | nil => simp [chain_update] at h
  | cons var next ih =>
    by_cases hn : var.name = name
    · simp only [chain_update, if_pos hn, Option.some.injEq] at h
      subst h
      simp
    · simp only [chain_update, if_neg hn, Option.map_eq_some'] at h
      obtain ⟨l, hl, rfl⟩ := h
      simp [ih l hl]

theorem chain_update_eq_none (name : List Nat) (value : Int) (chain : List Variable) :
    chain_update name value chain = none ↔ ∀ b ∈ chain, b.name ≠ name := by
  induction chain with
  | nil => simp [chain_update]
  | cons var next ih =>
    by_cases hn : var.name = name
    · simp [chain_update, hn]
    · simp [chain_update, hn, ih]

theorem set_variable_bucket (vars : Store) (name : List Nat) (value : Int) :
    (∃ chain, chain_update name value (vars (hash name)) = some chain ∧
      set_variable vars name value (hash name) = chain) ∨
    (chain_update name value (vars (hash name)) = none ∧
      set_variable vars name value (hash name)
        = { name := name, value := value } :: vars (hash name)) := by
  unfold set_variable
  simp only [if_true]
  cases h : chain_update name value (vars (hash name)) with
  | some chain => exact Or.inl ⟨chain, rfl, rfl⟩
  | none => exact Or.inr ⟨rfl, rfl⟩

theorem set_variable_other (vars : Store) (name : List Nat) (value : Int) (i : Fin HASH_SIZE)
    (h : i ≠ hash name) : set_variable vars name value i = vars i := by
  simp [set_variable, h]

theorem store_wf_empty : store_wf empty_store :=
  ⟨fun _ b hb => by simp [empty_store] at hb, fun _ => by simp [empty_store]⟩

theorem store_wf_set (vars : Store) (name : List Nat) (value : Int) (h : store_wf vars) :
    store_wf (set_variable vars name value) := by
  obtain ⟨hb, hn⟩ := h
  have names : ∀ i, i ≠ hash name → set_variable vars name value i = vars i :=
    fun i hi => set_variable_other vars name value i hi
  rcases set_variable_bucket vars name value with ⟨chain, hc, hs⟩ | ⟨hc, hs⟩
  · have hnames := chain_update_names name value _ chain hc
    constructor
    · intro i b hmem
      by_cases hi : i = hash name
      · subst hi
        rw [hs] at hmem
        have : b.name ∈ chain.map Variable.name := List.mem_map_of_mem _ hmem
        rw [hnames, List.mem_map] at this
        obtain ⟨b2, hb2, heq⟩ := this
        rw [← heq]; exact hb _ b2 hb2
      · rw [names i hi] at hmem; exact hb i b hmem
    · intro i
      by_cases hi : i = hash name
      · subst hi; rw [hs, hnames]; exact hn _
      · rw [names i hi]; exact hn i
  · rw [chain_update_eq_none] at hc
    constructor
    · intro i b hmem
      by_cases hi : i = hash name
      · subst hi
        rw [hs, List.mem_cons] at hmem
        rcases hmem with rfl | hmem
        · rfl
        · exact hb _ b hmem
      · rw [names i hi] at hmem; exact hb i b hmem
    · intro i
      by_cases hi : i = hash name
      · subst hi
        rw [hs, List.map_cons, List.nodup_cons]
        refine ⟨?_, hn _⟩
        intro hmem
        rw [List.mem_map] at hmem
        obtain ⟨b2, hb2, heq⟩ := hmem
        exact hc b2 hb2 heq
      · rw [names i hi]; exact hn i

theorem store_wf_after (calls : List (List Nat × Int)) : store_wf (store_after calls) := by
  unfold store_after
  generalize hinit : empty_store = init
  have hwf : store_wf init := hinit ▸ store_wf_empty
  clear hinit
  induction calls generalizing init with
  | nil => exact hwf
  | cons call calls ih => exact ih _ (store_wf_set init call.1 call.2 hwf)

theorem bindings_names_nodup (vars : Store) (h : store_wf vars) :
    ((bindings vars).map Variable.name).Nodup := by
  obtain ⟨hb, hn⟩ := h
  unfold bindings
  rw [List.map_flatMap, List.nodup_flatMap]
  refine ⟨fun i _ => hn i, ?_⟩
  refine (List.nodup_finRange HASH_SIZE).imp ?_
  intro i j hij
  intro name hi hj
  rw [List.mem_map] at hi hj
  obtain ⟨b1, hb1, h1⟩ := hi
  obtain ⟨b2, hb2, h2⟩ := hj
  have e1 := hb i b1 hb1
  have e2 := hb j b2 hb2
  rw [h1] at e1
  rw [h2] at e2
  exact hij (e1.symm.trans e2)

theorem is_bound_iff_bucket (vars : Store) (h : store_wf vars) (name : List Nat) :
    is_bound vars name ↔ ∃ b ∈ vars (hash name), b.name = name := by
  unfold is_bound bindings
  constructor
  · rintro ⟨b, hmem, hname⟩
    rw [List.mem_flatMap] at hmem
    obtain ⟨i, _, hbi⟩ := hmem
    have := h.1 i b hbi
    rw [hname] at this
    subst this
    exact ⟨b, hbi, hname⟩
  · rintro ⟨b, hmem, hname⟩
    exact ⟨b, List.mem_flatMap.mpr ⟨_, List.mem_finRange _, hmem⟩, hname⟩

theorem length_flatMap_update {ι : Type} [DecidableEq ι] (l : List ι) (f g : ι → List Variable)
    (k : ι) (d : Nat) (hl : l.Nodup) (hother : ∀ i, i ≠ k → g i = f i)
    (hk : (g k).length = (f k).length + d) :
    (l.flatMap g).length = (l.flatMap f).length + (if k ∈ l then d else 0) := by
  induction l with
  | nil => simp
  | cons i l ih =>
    rw [List.nodup_cons] at hl
    simp only [List.flatMap_cons, List.length_append, List.mem_cons]
    rw [ih hl.2]
    by_cases hik : i = k
    · subst hik
      simp [hl.1, hk]
      omega
    · have hki : ¬ k = i := fun h => hik h.symm
      rw [hother i hik]
      by_cases hkl : k ∈ l
      · simp [hkl]; omega
      · simp [hkl, hki]

theorem bindings_length_set (vars : Store) (name : List Nat) (value : Int) (d : Nat)
    (hk : (set_variable vars name value (hash name)).length = (vars (hash name)).length + d) :
    (bindings (set_variable vars name value)).length = (bindings vars).length + d := by
  have := length_flatMap_update (List.finRange HASH_SIZE) vars (set_variable vars name value)
    (hash name) d (List.nodup_finRange _)
    (fun i hi => set_variable_other vars name value i hi) hk
  simpa [bindings, List.mem_finRange] using this

/-- C8: after any finite sequence of `set_variable` calls from the empty table, no
name occurs in two nodes over all buckets, every node sits in the bucket indexed by
the hash of its name, and a further `set_variable` keeps the number of nodes when the
name is already bound and adds exactly one node when it is not; after `x = 1` then
`x = 2` the table holds the single node `x = 2`. -/
theorem C8_store_uniqueness (calls : List (List Nat × Int)) :
    ((bindings (store_after calls)).map Variable.name).Nodup ∧
    (∀ i, ∀ b ∈ store_after calls i, hash b.name = i) ∧
    (∀ (n : List Nat) (v : Int), is_bound (store_after calls) n →
      (bindings (set_variable (store_after calls) n v)).length
        = (bindings (store_after calls)).length) ∧
    (∀ (n : List Nat) (v : Int), ¬ is_bound (store_after calls) n →
      (bindings (set_variable (store_after calls) n v)).length
        = (bindings (store_after calls)).length + 1) ∧
    bindings (store_after [(bytes "x", 1), (bytes "x", 2)])
      = [{ name := bytes "x", value := 2 }] := by
  have hwf := store_wf_after calls
  refine ⟨bindings_names_nodup _ hwf, hwf.1, ?_, ?_, by decide⟩
  · intro n v hb
    rw [is_bound_iff_bucket _ hwf] at hb
    rcases set_variable_bucket (store_after calls) n v with ⟨chain, hc, hs⟩ | ⟨hc, _⟩
    · apply bindings_length_set _ n v 0
      rw [hs]
      have := congrArg List.length (chain_update_names n v _ chain hc)
      simpa using this
    · rw [chain_update_eq_none] at hc
      obtain ⟨b, hmem, hname⟩ := hb
      exact absurd hname (hc b hmem)
  · intro n v hb
    rw [is_bound_iff_bucket _ hwf] at hb
    rcases set_variable_bucket (store_after calls) n v with ⟨chain, hc, _⟩ | ⟨_, hs⟩
    · exfalso
      apply hb
      have hne : chain_update n v (store_after calls (hash n)) ≠ none := by
        rw [hc]; simp
      rw [Ne, chain_update_eq_none] at hne
      push_neg at hne
      exact hne
    · apply bindings_length_set _ n v 1
      rw [hs]; rfl

/-! ## Division and modulo by zero -/

theorem eval_step_zero_operand (vars : Store) (result : Int) (operand : Token)
    (hop : operand_value vars operand = some 0) :
    eval_step vars (result, T_DIVIDE) operand = .error .DivisionByZero ∧
    eval_step vars (result, T_MODULO) operand = .error .ModuloByZero := by
  unfold operand_value at hop
  unfold eval_step
  split at hop
  · next ht =>
    simp only [Option.some.injEq] at hop
    simp [ht, apply_number, hop, Except.map]
  · next ht =>
    simp [ht, apply_id, get_variable, hop, Except.map, Except.bind]
  · simp at hop

/-- C2: when evaluation reaches an operand (an integer literal, or an identifier bound
in the table) whose value is zero while the pending operator is `/` (respectively `%`)
and no earlier token has failed, `evaluate_expression` fails with "Division by zero"
(respectively "Modulo by zero"); the program `yap(10 / 0);` fails with "Division by
zero", exit status 1 and no output. -/
theorem C2_zero_divisor_fails (vars : Store) (before after : List Token) (operand : Token)
    (result : Int) (hop : operand_value vars operand = some 0) :
    (eval_tokens vars before (0, T_EOF) = .ok (result, T_DIVIDE) →
      evaluate_expression vars (before ++ operand :: after) = .error .DivisionByZero) ∧
    (eval_tokens vars before (0, T_EOF) = .ok (result, T_MODULO) →
      evaluate_expression vars (before ++ operand :: after) = .error .ModuloByZero) ∧
    (∀ fuel, main (fuel + 1) (bytes "yap(10 / 0);") = .fail .DivisionByZero empty_store [] ∧
      exit_status (main (fuel + 1) (bytes "yap(10 / 0);")) = some 1) := by
  obtain ⟨hd, hm⟩ := eval_step_zero_operand vars result operand hop
  refine ⟨?_, ?_, fun fuel => ⟨rfl, rfl⟩⟩
  · intro hpre
    simp [evaluate_expression, eval_tokens_append, hpre, Except.bind, eval_tokens, hd,
      Except.map]
  · intro hpre
    simp [evaluate_expression, eval_tokens_append, hpre, Except.bind, eval_tokens, hm,
      Except.map]

/-- C2 witness: `10 / 0` with a literal zero, and `7 % z` with `z` bound to zero. -/
theorem C2_zero_divisor_fails_witness :
    evaluate_expression empty_store ([num_tok 10, op_tok T_DIVIDE] ++ num_tok 0 :: [])
      = .error .DivisionByZero ∧
    evaluate_expression (set_variable empty_store (bytes "z") 0)
        ([num_tok 7, op_tok T_MODULO] ++ id_tok (bytes "z") :: [op_tok T_PLUS, num_tok 1])
      = .error .ModuloByZero :=
  ⟨(C2_zero_divisor_fails empty_store [num_tok 10, op_tok T_DIVIDE] [] (num_tok 0) 10
      rfl).1 rfl,
   (C2_zero_divisor_fails (set_variable empty_store (bytes "z") 0)
      [num_tok 7, op_tok T_MODULO] [op_tok T_PLUS, num_tok 1] (id_tok (bytes "z")) 7
      rfl).2.1 rfl⟩

/-! ## Behaviour of the statement handlers on the documented scenarios -/

/-- C9: whatever body and rest follow `based (0)`, the conditional handler still has
`)` as current token when it checks for `{`, so the run ends with "Expected '{' after
if condition" and no output; in particular `based (0) { yap(1); } yap(2);` ends with
exit status 1, whereas the rest `yap(2);` alone prints 2 and ends normally. -/
theorem C9_conditional_fails (fuel : Nat) (more : List Nat) :
    interpret (fuel + 1) (bytes "based (0)" ++ more)
      = .fail .IfExpectedLBrace empty_store [] ∧
    main (fuel + 1) (bytes "based (0) \x7b yap(1); \x7d yap(2);")
      = .fail .IfExpectedLBrace empty_store [] ∧
    exit_status (main (fuel + 1) (bytes "based (0) \x7b yap(1); \x7d yap(2);")) = some 1 ∧
    stdout_of (main (fuel + 2) (bytes " yap(2);")) = some (bytes "2\n") ∧
    exit_status (main (fuel + 2) (bytes " yap(2);")) = some 0 :=
  ⟨rfl, rfl, rfl, rfl, rfl⟩

/-- C10: whatever body and rest follow `fr_fr (0)`, the loop handler still has `)` as
current token when it checks for `{`, so the run ends with "Expected '{' after loop
condition" and no output; in particular `fr_fr (0) { yap(1); } yap(2);` ends with exit
status 1, whereas the rest `yap(2);` alone prints 2 and ends normally. -/
theorem C10_loop_fails (fuel : Nat) (more : List Nat) :
    interpret (fuel + 1) (bytes "fr_fr (0)" ++ more)
      = .fail .LoopExpectedLBrace empty_store [] ∧
    main (fuel + 1) (bytes "fr_fr (0) \x7b yap(1); \x7d yap(2);")
      = .fail .LoopExpectedLBrace empty_store [] ∧
    exit_status (main (fuel + 1) (bytes "fr_fr (0) \x7b yap(1); \x7d yap(2);")) = some 1 ∧
    stdout_of (main (fuel + 2) (bytes " yap(2);")) = some (bytes "2\n") ∧
    exit_status (main (fuel + 2) (bytes " yap(2);")) = some 0 :=
  ⟨rfl, rfl, rfl, rfl, rfl⟩

/-! ## Frame properties of the lexer-driven pieces -/

theorem advance_frame (s s1 : State) (h : advance s = .ok s1) :
    s1.vars = s.vars ∧ s1.output = s.output := by
  unfold advance at h
  split at h
  · next tok rest _ =>
    simp only [Res.ok.injEq] at h
    subst h
    exact ⟨rfl, rfl⟩
  · simp [raise] at h

theorem parse_expression_loop_frame (fuel : Nat) (s : State) (expr : List Token)
    (r : List Token × State) (h : parse_expression_loop fuel s expr = .ok r) :
    r.2.vars = s.vars ∧ r.2.output = s.output := by
  induction fuel generalizing s expr with
  | zero => simp [parse_expression_loop] at h
  | succ fuel ih =>
    unfold parse_expression_loop at h
    split at h
    · simp only [Res.ok.injEq] at h
      subst h
      exact ⟨rfl, rfl⟩
    · cases ha : advance s with
      | ok s1 =>
        rw [ha] at h
        have h1 := ih s1 _ h
        have h2 := advance_frame s s1 ha
        exact ⟨h1.1.trans h2.1, h1.2.trans h2.2⟩
      | fail e v o => rw [ha] at h; simp [Res.bind] at h
      | timeout => rw [ha] at h; simp [Res.bind] at h

theorem parse_expression_frame (s : State) (r : List Token × State)
    (h : parse_expression s = .ok r) : r.2.vars = s.vars ∧ r.2.output = s.output :=
  parse_expression_loop_frame _ s [] r h

/-! ## Undefined variables -/

theorem eval_step_pending (vars : Store) (st st1 : Int × TokenType) (tok : Token)
    (h : eval_step vars st tok = .ok st1) : is_arith st1.2 ∨ st1.2 = T_EOF := by
  unfold eval_step at h
  split at h
  · cases ha : apply_number st.2 st.1 tok.number with
    | ok v => rw [ha] at h; simp only [Except.map, Except.ok.injEq] at h; subst h; exact Or.inr rfl
    | error e => rw [ha] at h; simp [Except.map] at h
  · cases ha : apply_id vars st.2 st.1 tok.string with
    | ok v => rw [ha] at h; simp only [Except.map, Except.ok.injEq] at h; subst h; exact Or.inr rfl
    | error e => rw [ha] at h; simp [Except.map] at h
  all_goals first
    | (next ht => simp only [Except.ok.injEq] at h; subst h; left; simp [is_arith, ht])
    | simp at h

theorem eval_tokens_pending (vars : Store) (toks : List Token) (st st1 : Int × TokenType)
    (hst : is_arith st.2 ∨ st.2 = T_EOF) (h : eval_tokens vars toks st = .ok st1) :
    is_arith st1.2 ∨ st1.2 = T_EOF := by
  induction toks generalizing st with
  | nil => simp only [eval_tokens, Except.ok.injEq] at h; subst h; exact hst
  | cons tok toks ih =>
    simp only [eval_tokens] at h
    cases hs : eval_step vars st tok with
    | ok st2 =>
      rw [hs] at h
      exact ih st2 (eval_step_pending vars st st2 tok hs) h
    | error e => rw [hs] at h; simp [Except.bind] at h

theorem apply_id_unbound (vars : Store) (last_op : TokenType) (result : Int) (name : List Nat)
    (hop : is_arith last_op ∨ last_op = T_EOF)
    (hun : chain_find name (vars (hash name)) = none) :
    apply_id vars last_op result name = .error .UndefinedVariable := by
  have hg : get_variable vars name = .error .UndefinedVariable := by
    simp [get_variable, hun]
  rcases hop with (h | h | h | h | h) | h <;> subst h <;>
    simp [apply_id, hg, Except.map, Except.bind]

theorem evaluate_unbound (vars : Store) (before after : List Token) (tok : Token)
    (st : Int × TokenType) (hid : tok.type = T_ID)
    (hpre : eval_tokens vars before (0, T_EOF) = .ok st)
    (hun : chain_find tok.string (vars (hash tok.string)) = none) :
    evaluate_expression vars (before ++ tok :: after) = .error .UndefinedVariable := by
  have hpend := eval_tokens_pending vars before (0, T_EOF) st (Or.inr rfl) hpre
  have hstep : eval_step vars st tok = .error .UndefinedVariable := by
    simp [eval_step, hid, apply_id_unbound vars st.2 st.1 tok.string hpend hun, Except.map]
  simp [evaluate_expression, eval_tokens_append, hpre, Except.bind, eval_tokens, hstep,
    Except.map]

/-- C6: a print or assign statement whose expression reads an identifier with no
binding (evaluation reaches the identifier without an earlier failure) fails with
"Undefined variable", and at that point the output and the variable table are exactly
those before the statement; the assignment target is neither created nor updated, and
`get_variable` itself has no default value. -/
theorem C6_undefined_read_no_effect (fuel : Nat) (s s1 s2 s3 s4 : State)
    (before after : List Token) (tok : Token) (st : Int × TokenType)
    (hid : tok.type = T_ID)
    (hpre : eval_tokens s.vars before (0, T_EOF) = .ok st)
    (hun : chain_find tok.string (s.vars (hash tok.string)) = none) :
    (s.current_token.type = T_PRINT → advance s = .ok s1 →
      s1.current_token.type = T_LPAREN → advance s1 = .ok s2 →
      s2.current_token.type ≠ T_STRING →
      parse_expression s2 = .ok (before ++ tok :: after, s3) →
      execute (fuel + 1) s = .fail .UndefinedVariable s.vars s.output) ∧
    (s.current_token.type = T_SET → advance s = .ok s1 →
      s1.current_token.type = T_ID → advance s1 = .ok s2 →
      s2.current_token.type = T_EQUALS → advance s2 = .ok s3 →
      parse_expression s3 = .ok (before ++ tok :: after, s4) →
      execute (fuel + 1) s = .fail .UndefinedVariable s.vars s.output) ∧
    get_variable s.vars tok.string = .error .UndefinedVariable := by
  refine ⟨?_, ?_, by simp [get_variable, hun]⟩
  · intro hcur h1 hlp h2 hns hp
    have f1 := advance_frame s s1 h1
    have f2 := advance_frame s1 s2 h2
    have f3 := parse_expression_frame s2 _ hp
    have hv : s3.vars = s.vars := f3.1.trans (f2.1.trans f1.1)
    have ho : s3.output = s.output := f3.2.trans (f2.2.trans f1.2)
    have he := evaluate_unbound s.vars before after tok st hid hpre hun
    simp [execute, hcur, execute_print, h1, Res.bind, hlp, h2, hns, hp, evaluate, he, raise,
      hv, ho]
  · intro hcur h1 hidt h2 heq h3 hp
    have f1 := advance_frame s s1 h1
    have f2 := advance_frame s1 s2 h2
    have f3 := advance_frame s2 s3 h3
    have f4 := parse_expression_frame s3 _ hp
    have hv : s4.vars = s.vars := f4.1.trans (f3.1.trans (f2.1.trans f1.1))
    have ho : s4.output = s.output := f4.2.trans (f3.2.trans (f2.2.trans f1.2))
    have he := evaluate_unbound s.vars before after tok st hid hpre hun
    simp [execute, hcur, execute_set, h1, Res.bind, hidt, h2, heq, h3, hp, evaluate, he,
      raise, hv, ho]

/-- C6 witness: from the table `x = 1` with `a` already printed, `yap(x + y);` and
`sigma y = x + y;` both fail on the read of `y` and leave output and table alone. -/
theorem C6_undefined_read_no_effect_witness :
    execute 1 (sample_state (op_tok T_PRINT) "(x + y);")
      = .fail .UndefinedVariable sample_store (bytes "a\n") ∧
    execute 1 (sample_state (op_tok T_SET) " y = x + y;")
      = .fail .UndefinedVariable sample_store (bytes "a\n") :=
  ⟨(C6_undefined_read_no_effect 0
      (sample_state (op_tok T_PRINT) "(x + y);")
      (sample_state (op_tok T_LPAREN) "x + y);")
      (sample_state (id_tok (bytes "x")) " + y);")
      (sample_state (op_tok T_RPAREN) ";")
      (sample_state (op_tok T_RPAREN) ";")
      [id_tok (bytes "x"), op_tok T_PLUS] [] (id_tok (bytes "y")) (1, T_PLUS)
      rfl rfl rfl).1 rfl rfl rfl rfl (by decide) rfl,
   (C6_undefined_read_no_effect 0
      (sample_state (op_tok T_SET) " y = x + y;")
      (sample_state (id_tok (bytes "y")) " = x + y;")
      (sample_state (op_tok T_EQUALS) " x + y;")
      (sample_state (id_tok (bytes "x")) " + y;")
      (sample_state (op_tok T_SEMICOLON) "")
      [id_tok (bytes "x"), op_tok T_PLUS] [] (id_tok (bytes "y")) (1, T_PLUS)
      rfl rfl rfl).2.1 rfl rfl rfl rfl rfl rfl rfl⟩

/-! ## Lexing of words, literals and punctuation -/

theorem wrap32_of_range (x : Int) (h1 : -2147483648 ≤ x) (h2 : x < 2147483648) :
    wrap32 x = x := by
  unfold wrap32; omega

theorem decimal_from_ge (acc : Nat) (ds : List Nat) : acc ≤ decimal_from acc ds := by
  induction ds generalizing acc with
  | nil => exact Nat.le_refl _
  | cons d ds ih =>
    have := ih (acc * 10 + (d - 48))
    simp only [decimal_from, List.foldl_cons] at this ⊢
    omega

theorem scan_number_run (ds rest : List Nat) (acc : Nat)
    (hd : ∀ d ∈ ds, isdigit d = true)
    (hb : ∀ c r, rest = c :: r → isdigit c = false)
    (hmax : decimal_from acc ds ≤ 2147483647) :
    scan_number (ds ++ rest) (acc : Int) = (((decimal_from acc ds : Nat) : Int), rest) := by
  induction ds generalizing acc with
  | nil =>
    cases rest with
    | nil => rfl
    | cons c r => simp [scan_number, hb c r rfl, decimal_from]
  | cons d ds ih =>
    have hdig := hd d (List.mem_cons_self _ _)
    have hstep : decimal_from acc (d :: ds) = decimal_from (acc * 10 + (d - 48)) ds := rfl
    rw [hstep] at hmax ⊢
    have hle := decimal_from_ge (acc * 10 + (d - 48)) ds
    have h48 : 48 ≤ d := by simp [isdigit] at hdig; omega
    have hnum : int_add (int_mul (acc : Int) 10) ((d : Int) - 48)
        = ((acc * 10 + (d - 48) : Nat) : Int) := by
      unfold int_add int_mul
      rw [wrap32_of_range (acc * 10 : Int) (by omega) (by omega)]
      rw [wrap32_of_range _ (by omega) (by omega)]
      omega
    show scan_number (d :: (ds ++ rest)) (acc : Int) = _
    simp only [scan_number, hdig, if_true, hnum]
    exact ih _ (fun x hx => hd x (List.mem_cons_of_mem _ hx)) hmax

theorem scan_ident_run (x rest buf : List Nat)
    (hx : ∀ d ∈ x, is_ident_byte d = true)
    (hb : ∀ c r, rest = c :: r → is_ident_byte c = false)
    (hlen : buf.length + x.length < MAX_TOKEN_SIZE - 1) :
    scan_ident (x ++ rest) buf = .ok (buf ++ x, rest) := by
  induction x generalizing buf with
  | nil =>
    cases rest with
    | nil => simp [scan_ident]
    | cons c r =>
      have := hb c r rfl
      simp only [is_ident_byte] at this
      simp [scan_ident, this]
  | cons d x ih =>
    have hd := hx d (List.mem_cons_self _ _)
    simp only [is_ident_byte] at hd
    simp only [List.length_cons] at hlen
    have hlt : ¬ (buf.length + 1 ≥ MAX_TOKEN_SIZE - 1) := by omega
    show scan_ident (d :: (x ++ rest)) buf = _
    simp only [scan_ident, hd, if_true, hlt, if_false]
    rw [ih (buf ++ [d]) (fun y hy => hx y (List.mem_cons_of_mem _ hy))
      (by simp only [List.length_append, List.length_singleton]; omega)]
    simp

theorem get_next_token_space (rest : List Nat) :
    get_next_token (32 :: rest) = get_next_token rest := by
  simp [get_next_token, skip_space, isspace]

theorem get_next_token_word (x rest : List Nat) (hx : is_identifier x)
    (hb : ∀ c r, rest = c :: r → is_ident_byte c = false)
    (hlen : x.length < MAX_TOKEN_SIZE - 1) :
    get_next_token (x ++ rest) = .ok (classify_word x, rest) := by
  obtain ⟨hhead, hall⟩ := hx
  cases x with
  | nil => simp at hhead
  | cons c cs =>
  have hc : isalpha c = true := by simpa using hhead
  have hrun := scan_ident_run (c :: cs) rest [] hall hb (by simpa using hlen)
  have hc2 := hc
  simp only [isalpha, decide_eq_true_eq] at hc2
  have hsp : isspace c = false := by simp [isspace]; omega
  have hdg : isdigit c = false := by simp [isdigit]; omega
  have hq : c ≠ 34 := by omega
  simp only [List.cons_append] at hrun ⊢
  simp [get_next_token, skip_space, hsp, hdg, hq, hc, hrun, Except.map]

theorem get_next_token_literal (ds rest : List Nat) (hds : is_literal ds)
    (hb : ∀ c r, rest = c :: r → isdigit c = false)
    (hmax : decimal_value ds ≤ 2147483647) :
    get_next_token (ds ++ rest) = .ok (num_tok (decimal_value ds), rest) := by
  obtain ⟨hne, hall⟩ := hds
  have hrun := scan_number_run ds rest 0 hall hb hmax
  cases ds with
  | nil => exact absurd rfl hne
  | cons d ds =>
    have hd := hall d (List.mem_cons_self _ _)
    have hd2 := hd
    simp only [isdigit, decide_eq_true_eq] at hd2
    have hsp : isspace d = false := by simp [isspace]; omega
    simp only [List.cons_append, Nat.cast_zero] at hrun ⊢
    simp [get_next_token, skip_space, hsp, hd, hrun, num_tok, decimal_value]

/-! ## Trimming of the program text -/

theorem dropWhile_append_stop (p : Nat → Bool) (u v : List Nat) (c : Nat) (hc : p c = false) :
    (u ++ c :: v).dropWhile p = u.dropWhile p ++ c :: v := by
  induction u with
  | nil => simp [List.dropWhile, hc]
  | cons a u ih =>
    cases ha : p a with
    | true => simp [List.dropWhile, ha, ih]
    | false => simp [List.dropWhile, ha]

theorem trim_trailing_append (a q : List Nat) (c : Nat) (hc : isspace c = false) :
    trim_trailing (a ++ c :: q) = a ++ c :: trim_trailing q := by
  unfold trim_trailing
  rw [List.reverse_append, List.reverse_cons, List.append_assoc, List.singleton_append,
    dropWhile_append_stop isspace _ _ c hc]
  simp

/-! ## Assignment followed by a print -/

theorem interpret_assign_print (fuel : Nat) (x : List Nat) (n : Int)
    (t0 t1 t2 t3 t4 t5 t6 t7 t8 t9 t10 : List Nat)
    (h1 : get_next_token t0 = .ok (op_tok T_SET, t1))
    (h2 : get_next_token t1 = .ok (id_tok x, t2))
    (h3 : get_next_token t2 = .ok (op_tok T_EQUALS, t3))
    (h4 : get_next_token t3 = .ok (num_tok n, t4))
    (h5 : get_next_token t4 = .ok (op_tok T_SEMICOLON, t5))
    (h6 : get_next_token t5 = .ok (op_tok T_PRINT, t6))
    (h7 : get_next_token t6 = .ok (op_tok T_LPAREN, t7))
    (h8 : get_next_token t7 = .ok (id_tok x, t8))
    (h9 : get_next_token t8 = .ok (op_tok T_RPAREN, t9))
    (h10 : get_next_token t9 = .ok (op_tok T_SEMICOLON, t10))
    (h11 : get_next_token t10 = .ok (op_tok T_EOF, [])) :
    interpret (fuel + 3) t0 = .ok
      { input := [], current_token := op_tok T_EOF,
        vars := set_variable empty_store x n, output := print_int n ++ [10] } := by
  have hg := get_set_same empty_store x n
  simp [interpret, initial_state, advance, h1, h2, h3, h4, h5, h6, h7, h8, h9, h10, h11, Res.bind, execute,
    execute_set, execute_print, parse_expression, parse_expression_loop, is_terminator,
    evaluate, evaluate_expression, eval_tokens, eval_step, apply_number, apply_id, hg,
    op_tok, id_tok, num_tok, Except.map, Except.bind]

theorem classify_word_identifier (x : List Nat) (hk : ¬ is_keyword x) :
    classify_word x = id_tok x := by
  unfold is_keyword at hk
  push_neg at hk
  simp [classify_word, hk.1, hk.2.1, hk.2.2.1, hk.2.2.2, id_tok]

theorem digitChar_toNat (k : Nat) (hk : k < 10) : (Nat.digitChar k).toNat = k + 48 := by
  interval_cases k <;> rfl

theorem toDigitsCore_value (fuel n : Nat) (ds : List Char) (h : n < fuel) :
    decimal_from 0 ((Nat.toDigitsCore 10 fuel n ds).map Char.toNat)
      = decimal_from n (ds.map Char.toNat) := by
  induction fuel generalizing n ds with
  | zero => omega
  | succ fuel ih =>
    have hd := digitChar_toNat (n % 10) (Nat.mod_lt _ (by decide))
    unfold Nat.toDigitsCore
    by_cases h0 : n / 10 = 0
    · simp only [h0, if_true, List.map_cons, decimal_from, List.foldl_cons, hd]
      congr 1
      omega
    · simp only [h0, if_false]
      rw [ih (n / 10) _ (by omega)]
      simp only [List.map_cons, decimal_from, List.foldl_cons, hd]
      congr 1
      omega

theorem toDigitsCore_digits (fuel n : Nat) (ds : List Char)
    (hds : ∀ c ∈ ds, isdigit c.toNat = true) :
    ∀ c ∈ Nat.toDigitsCore 10 fuel n ds, isdigit c.toNat = true := by
  induction fuel generalizing n ds with
  | zero => simpa [Nat.toDigitsCore] using hds
  | succ fuel ih =>
    have hd := digitChar_toNat (n % 10) (Nat.mod_lt _ (by decide))
    have hdig : isdigit (Nat.digitChar (n % 10)).toNat = true := by
      rw [hd]; simp [isdigit]; omega
    have hcons : ∀ c ∈ Nat.digitChar (n % 10) :: ds, isdigit c.toNat = true := by
      intro c hc
      rcases List.mem_cons.mp hc with rfl | hc
      · exact hdig
      · exact hds c hc
    unfold Nat.toDigitsCore
    by_cases h0 : n / 10 = 0
    · simpa only [h0, if_true] using hcons
    · simp only [h0, if_false]
      exact ih _ _ hcons

theorem toDigitsCore_ne_nil (fuel n : Nat) (ds : List Char) :
    Nat.toDigitsCore 10 (fuel + 1) n ds ≠ [] := by
  induction fuel generalizing n ds with
  | zero =>
    unfold Nat.toDigitsCore
    by_cases h0 : n / 10 = 0 <;> simp [h0, Nat.toDigitsCore]
  | succ fuel ih =>
    unfold Nat.toDigitsCore
    by_cases h0 : n / 10 = 0
    · simp [h0]
    · simp only [h0, if_false]; exact ih _ _

theorem print_int_literal (n : Nat) :
    is_literal (print_int n) ∧ decimal_value (print_int n) = n := by
  have hp : print_int (n : Int) = (Nat.toDigits 10 n).map Char.toNat := by
    simp [print_int]
  rw [hp]
  refine ⟨⟨?_, ?_⟩, ?_⟩
  · intro h
    rw [List.map_eq_nil_iff] at h
    exact toDigitsCore_ne_nil n n [] h
  · intro d hd
    rw [List.mem_map] at hd
    obtain ⟨c, hc, rfl⟩ := hd
    exact toDigitsCore_digits (n + 1) n [] (by simp) c hc
  · have := toDigitsCore_value (n + 1) n [] (Nat.lt_succ_self n)
    simpa [decimal_value, Nat.toDigits, decimal_from] using this
/-- C4: for every identifier `x` (letter-led run of letters, digits and `_`, not a
keyword, shorter than the token buffer) and every number `n ≤ 2147483647`, the program
`sigma x = n; yap(x);`, with `n` written as any decimal literal and in particular as
its decimal representation, run from the empty table prints the decimal representation
of `n` and a newline, ends normally with status 0, and leaves the table holding `x`
bound to `n`. -/
theorem C4_assign_then_print (fuel : Nat) (x : List Nat) (n : Nat)
    (hx : is_identifier x) (hk : ¬ is_keyword x) (hlen : x.length < MAX_TOKEN_SIZE - 1)
    (hmax : n ≤ 2147483647) :
    (∀ ds, is_literal ds → decimal_value ds = n →
      main (fuel + 3) (assign_print_program x ds) = .ok
        { input := [], current_token := op_tok T_EOF,
          vars := set_variable empty_store x n, output := print_int n ++ bytes "\n" } ∧
      exit_status (main (fuel + 3) (assign_print_program x ds)) = some 0) ∧
    (is_literal (print_int n) ∧ decimal_value (print_int n) = n) ∧
    main (fuel + 3) (assign_print_program x (print_int n)) = .ok
      { input := [], current_token := op_tok T_EOF,
        vars := set_variable empty_store x n, output := print_int n ++ bytes "\n" } ∧
    get_variable (set_variable empty_store x n) x = .ok n := by
  have key : ∀ ds, is_literal ds → decimal_value ds = n →
      main (fuel + 3) (assign_print_program x ds) = .ok
        { input := [], current_token := op_tok T_EOF,
          vars := set_variable empty_store x n, output := print_int n ++ bytes "\n" } := by
    intro ds hds hval
    have hmax2 : decimal_value ds ≤ 2147483647 := by rw [hval]; exact hmax
    have hprog : assign_print_program x ds
        = (bytes "sigma " ++ (x ++ (bytes " = " ++ (ds ++ (bytes "; yap(" ++ (x ++ [41]))))))
          ++ 59 :: [] := by
      simp [assign_print_program, bytes]
    have hne : assign_print_program x ds ≠ [] := by rw [hprog]; simp
    have htrim : trim_trailing (assign_print_program x ds) = assign_print_program x ds := by
      rw [hprog, trim_trailing_append _ [] 59 (by decide)]; rfl
    have h2 : get_next_token (32 :: (x ++ (32 :: (bytes "= " ++ (ds ++
          (bytes "; yap(" ++ (x ++ bytes ");")))))))
        = .ok (id_tok x,
            32 :: (bytes "= " ++ (ds ++ (bytes "; yap(" ++ (x ++ bytes ");"))))) := by
      rw [get_next_token_space, get_next_token_word x _ hx
        (fun c r h => by simp only [List.cons.injEq] at h; rw [← h.1]; decide) hlen,
        classify_word_identifier x hk]
    have h4 : get_next_token (32 :: (ds ++ (bytes "; yap(" ++ (x ++ bytes ");"))))
        = .ok (num_tok n, bytes "; yap(" ++ (x ++ bytes ");")) := by
      rw [get_next_token_space, get_next_token_literal ds _ hds
        (fun c r h => by
          have : c = 59 := by
            have h0 : bytes "; yap(" ++ (x ++ bytes ");")
                = 59 :: (bytes " yap(" ++ (x ++ bytes ");")) := rfl
            rw [h0] at h; simp only [List.cons.injEq] at h; exact h.1.symm
          subst this; decide) hmax2, hval]
    have h8 : get_next_token (x ++ bytes ");") = .ok (id_tok x, bytes ");") := by
      rw [get_next_token_word x _ hx
        (fun c r h => by
          have h0 : bytes ");" = [41, 59] := rfl
          rw [h0] at h; simp only [List.cons.injEq] at h; rw [← h.1]; decide) hlen,
        classify_word_identifier x hk]
    have hrun := interpret_assign_print fuel x n
      (assign_print_program x ds) _ _ _ _ _ _ _ _ _ _ rfl h2 rfl h4 rfl rfl rfl h8 rfl rfl rfl
    unfold main
    rw [if_neg hne, htrim]
    exact hrun
  have hcanon := print_int_literal n
  refine ⟨fun ds hds hval => ⟨key ds hds hval, by rw [key ds hds hval]; rfl⟩, hcanon,
    key _ hcanon.1 hcanon.2, get_set_same _ _ _⟩

/-- C4 witness: `sigma x = 5; yap(x);` prints `5` and a newline and binds `x` to 5. -/
theorem C4_assign_then_print_witness :
    main 3 (bytes "sigma x = 5; yap(x);") = .ok
      { input := [], current_token := op_tok T_EOF,
        vars := set_variable empty_store (bytes "x") 5, output := bytes "5\n" } ∧
    get_variable (set_variable empty_store (bytes "x") 5) (bytes "x") = .ok 5 :=
  (C4_assign_then_print 0 (bytes "x") 5
    (by decide) (by decide) (by decide) (by decide)).2.2

/-! ## The lexer on a text continued by an unknown character -/

theorem skip_space_append (a q : List Nat) (c : Nat) (hc : isspace c = false) :
    skip_space (a ++ c :: q) = skip_space a ++ c :: q := by
  induction a with
  | nil => simp [skip_space, hc]
  | cons d a ih =>
    show skip_space (d :: (a ++ c :: q)) = _
    cases hd : isspace d with
    | true => simp [skip_space, hd, ih]
    | false => simp [skip_space, hd]

theorem scan_number_append (l q : List Nat) (c : Nat) (num : Int) (hc : isdigit c = false) :
    scan_number (l ++ c :: q) num
      = ((scan_number l num).1, (scan_number l num).2 ++ c :: q) := by
  induction l generalizing num with
  | nil => simp [scan_number, hc]
  | cons d l ih =>
    show scan_number (d :: (l ++ c :: q)) num = _
    cases hd : isdigit d with
    | true => simp [scan_number, hd, ih]
    | false => simp [scan_number, hd]

theorem scan_string_append (l more buf : List Nat) (r : List Nat × List Nat)
    (h : scan_string l buf = .ok r) :
    scan_string (l ++ more) buf = .ok (r.1, r.2 ++ more) := by
  induction l generalizing buf with
  | nil => simp [scan_string] at h
  | cons d l ih =>
    show scan_string (d :: (l ++ more)) buf = _
    unfold scan_string at h ⊢
    by_cases hq : d = 34
    · simp only [hq, if_true, Except.ok.injEq] at h ⊢
      subst h; rfl
    · simp only [hq, if_false] at h ⊢
      by_cases hlen : buf.length + 1 ≥ MAX_TOKEN_SIZE - 1
      · simp [hlen] at h
      · simp only [hlen, if_false] at h ⊢
        exact ih _ h

theorem scan_ident_append (l q buf : List Nat) (c : Nat) (r : List Nat × List Nat)
    (hc : is_ident_byte c = false) (h : scan_ident l buf = .ok r) :
    scan_ident (l ++ c :: q) buf = .ok (r.1, r.2 ++ c :: q) := by
  simp only [is_ident_byte] at hc
  induction l generalizing buf with
  | nil =>
    simp only [scan_ident, Except.ok.injEq] at h
    subst h
    simp [scan_ident, hc]
  | cons d l ih =>
    show scan_ident (d :: (l ++ c :: q)) buf = _
    unfold scan_ident at h ⊢
    by_cases hd : (isalnum d || decide (d = 95)) = true
    · simp only [hd, if_true] at h ⊢
      by_cases hlen : buf.length + 1 ≥ MAX_TOKEN_SIZE - 1
      · simp [hlen] at h
      · simp only [hlen, if_false] at h ⊢
        exact ih _ h
    · simp only [hd] at h ⊢
      simp only [Bool.false_eq_true, if_false, Except.ok.injEq] at h ⊢
      subst h; rfl

theorem single_char_rest (c0 : Nat) (rest : List Nat) (h61 : c0 ≠ 61) :
    single_char c0 rest = (single_char c0 []).map (fun p => (p.1, rest)) := by
  unfold single_char
  rw [if_neg h61, if_neg h61]
  by_cases h1 : c0 = 40
  · rw [if_pos h1, if_pos h1]; rfl
  rw [if_neg h1, if_neg h1]
  by_cases h2 : c0 = 41
  · rw [if_pos h2, if_pos h2]; rfl
  rw [if_neg h2, if_neg h2]
  by_cases h3 : c0 = 123
  · rw [if_pos h3, if_pos h3]; rfl
  rw [if_neg h3, if_neg h3]
  by_cases h4 : c0 = 125
  · rw [if_pos h4, if_pos h4]; rfl
  rw [if_neg h4, if_neg h4]
  by_cases h5 : c0 = 59
  · rw [if_pos h5, if_pos h5]; rfl
  rw [if_neg h5, if_neg h5]
  by_cases h6 : c0 = 43
  · rw [if_pos h6, if_pos h6]; rfl
  rw [if_neg h6, if_neg h6]
  by_cases h7 : c0 = 45
  · rw [if_pos h7, if_pos h7]; rfl
  rw [if_neg h7, if_neg h7]
  by_cases h8 : c0 = 42
  · rw [if_pos h8, if_pos h8]; rfl
  rw [if_neg h8, if_neg h8]
  by_cases h9 : c0 = 47
  · rw [if_pos h9, if_pos h9]; rfl
  rw [if_neg h9, if_neg h9]
  by_cases h10 : c0 = 37
  · rw [if_pos h10, if_pos h10]; rfl
  rw [if_neg h10, if_neg h10]
  by_cases h11 : c0 = 60
  · rw [if_pos h11, if_pos h11]; rfl
  rw [if_neg h11, if_neg h11]
  by_cases h12 : c0 = 62
  · rw [if_pos h12, if_pos h12]; rfl
  rw [if_neg h12, if_neg h12]
  rfl

theorem single_char_equals (d : Nat) (tl : List Nat) (hd : d ≠ 61) :
    single_char 61 (d :: tl) = .ok ({ type := T_EQUALS }, d :: tl) := by
  simp only [single_char, Nat.reduceEqDiff, if_false, if_true]
  split
  · next heq => simp only [List.cons.injEq] at heq; exact absurd heq.1 hd
  · rfl

theorem single_char_append (c0 : Nat) (rest q : List Nat) (c : Nat) (r : Token × List Nat)
    (hc : c ≠ 61) (h : single_char c0 rest = .ok r) :
    single_char c0 (rest ++ c :: q) = .ok (r.1, r.2 ++ c :: q) := by
  by_cases h61 : c0 = 61
  · subst h61
    cases rest with
    | nil =>
      simp only [single_char, Nat.reduceEqDiff, if_false, if_true, Except.ok.injEq] at h
      subst h
      exact single_char_equals c q hc
    | cons d rest =>
      by_cases hd : d = 61
      · subst hd
        simp only [single_char, Nat.reduceEqDiff, if_false, if_true, Except.ok.injEq] at h
        subst h
        simp [single_char]
      · rw [single_char_equals d rest hd] at h
        simp only [Except.ok.injEq] at h
        subst h
        exact single_char_equals d _ hd
  · rw [single_char_rest c0 _ h61] at h ⊢
    cases hs : single_char c0 [] with
    | error e => rw [hs] at h; simp [Except.map] at h
    | ok p =>
      rw [hs] at h
      simp only [Except.map, Except.ok.injEq] at h ⊢
      subst h; rfl

theorem single_char_unknown (c : Nat) (rest : List Nat) (hc : is_unknown c) :
    single_char c rest = .error (.UnknownCharacter c) := by
  obtain ⟨_, _, _, _, _, hp⟩ := hc
  simp only [is_punct, List.mem_cons, List.mem_singleton, List.not_mem_nil, or_false,
    decide_eq_false_iff_not, not_or] at hp
  obtain ⟨h1, h2, h3, h4, h5, h6, h7, h8, h9, h10, h11, h12, h13⟩ := hp
  unfold single_char
  rw [if_neg h1, if_neg h2, if_neg h3, if_neg h4, if_neg h5, if_neg h6, if_neg h7, if_neg h8,
    if_neg h9, if_neg h10, if_neg h11, if_neg h12, if_neg h13]

theorem single_char_type (c0 : Nat) (rest : List Nat) (r : Token × List Nat)
    (h : single_char c0 rest = .ok r) : r.1.type ≠ T_EOF := by
  by_cases h61 : c0 = 61
  · subst h61
    cases rest with
    | nil =>
      simp only [single_char, Nat.reduceEqDiff, if_false, if_true, Except.ok.injEq] at h
      subst h; simp
    | cons d rest =>
      by_cases hd : d = 61
      · subst hd
        simp only [single_char, Nat.reduceEqDiff, if_false, if_true, Except.ok.injEq] at h
        subst h; simp
      · rw [single_char_equals d rest hd] at h
        simp only [Except.ok.injEq] at h
        subst h; simp
  · unfold single_char at h
    rw [if_neg h61] at h
    by_cases h0 : c0 = 40
    · rw [if_pos h0] at h; cases h; simp
    rw [if_neg h0] at h
    by_cases h1 : c0 = 41
    · rw [if_pos h1] at h; cases h; simp
    rw [if_neg h1] at h
    by_cases h2 : c0 = 123
    · rw [if_pos h2] at h; cases h; simp
    rw [if_neg h2] at h
    by_cases h3 : c0 = 125
    · rw [if_pos h3] at h; cases h; simp
    rw [if_neg h3] at h
    by_cases h4 : c0 = 59
    · rw [if_pos h4] at h; cases h; simp
    rw [if_neg h4] at h
    by_cases h5 : c0 = 43
    · rw [if_pos h5] at h; cases h; simp
    rw [if_neg h5] at h
    by_cases h6 : c0 = 45
    · rw [if_pos h6] at h; cases h; simp
    rw [if_neg h6] at h
    by_cases h7 : c0 = 42
    · rw [if_pos h7] at h; cases h; simp
    rw [if_neg h7] at h
    by_cases h8 : c0 = 47
    · rw [if_pos h8] at h; cases h; simp
    rw [if_neg h8] at h
    by_cases h9 : c0 = 37
    · rw [if_pos h9] at h; cases h; simp
    rw [if_neg h9] at h
    by_cases h10 : c0 = 60
    · rw [if_pos h10] at h; cases h; simp
    rw [if_neg h10] at h
    by_cases h11 : c0 = 62
    · rw [if_pos h11] at h; cases h; simp
    rw [if_neg h11] at h
    cases h

theorem classify_word_type (buf : List Nat) : (classify_word buf).type ≠ T_EOF := by
  unfold classify_word
  repeat' split
  all_goals simp

theorem get_next_token_append (a q : List Nat) (c : Nat) (hc : is_unknown c) (tok : Token)
    (r : List Nat) (h : get_next_token a = .ok (tok, r)) :
    (tok.type ≠ T_EOF ∧ get_next_token (a ++ c :: q) = .ok (tok, r ++ c :: q)) ∨
    (tok.type = T_EOF ∧ get_next_token (a ++ c :: q) = .error (.UnknownCharacter c)) := by
  have hsp := hc.1
  have hdg := hc.2.1
  have hal := hc.2.2.1
  have hq := hc.2.2.2.2.1
  have hid : is_ident_byte c = false := by
    simp [is_ident_byte, isalnum, hal, hdg, hc.2.2.2.1]
  have h61 : c ≠ 61 := by
    have := hc.2.2.2.2.2
    simp only [is_punct, decide_eq_false_iff_not] at this
    intro h; apply this; subst h; decide
  unfold get_next_token at h ⊢
  rw [skip_space_append a q c hsp]
  cases hs : skip_space a with
  | nil =>
    rw [hs] at h
    simp only [Except.ok.injEq, Prod.mk.injEq] at h
    right
    refine ⟨by rw [← h.1], ?_⟩
    simp only [List.nil_append, hdg, hq, hal, Bool.false_eq_true, if_false]
    exact single_char_unknown c q hc
  | cons c0 rest0 =>
    rw [hs] at h
    left
    simp only [List.cons_append] at h ⊢
    by_cases h0 : isdigit c0 = true
    · simp only [h0, if_true, Except.ok.injEq, Prod.mk.injEq] at h ⊢
      have happ := scan_number_append (c0 :: rest0) q c 0 hdg
      simp only [List.cons_append] at happ
      rw [happ]
      obtain ⟨h1, h2⟩ := h
      subst h1; subst h2
      simp
    · simp only [h0, Bool.false_eq_true, if_false] at h ⊢
      by_cases h1 : c0 = 34
      · simp only [h1, if_true] at h ⊢
        cases hstr : scan_string rest0 [] with
        | error e => rw [hstr] at h; simp [Except.map] at h
        | ok p =>
          rw [hstr] at h
          rw [scan_string_append rest0 (c :: q) [] p hstr]
          simp only [Except.map, Except.ok.injEq, Prod.mk.injEq] at h ⊢
          obtain ⟨h2, h3⟩ := h
          subst h2; subst h3
          simp
      · simp only [h1, if_false] at h ⊢
        by_cases h2 : isalpha c0 = true
        · simp only [h2, if_true] at h ⊢
          cases hidn : scan_ident (c0 :: rest0) [] with
          | error e => rw [hidn] at h; simp [Except.map] at h
          | ok p =>
            rw [hidn] at h
            have happ := scan_ident_append (c0 :: rest0) q [] c p hid hidn
            simp only [List.cons_append] at happ
            rw [happ]
            simp only [Except.map, Except.ok.injEq, Prod.mk.injEq] at h ⊢
            obtain ⟨h3, h4⟩ := h
            subst h3; subst h4
            exact ⟨classify_word_type _, rfl, rfl⟩
        · simp only [h2, Bool.false_eq_true, if_false] at h ⊢
          have := single_char_append c0 rest0 q c _ h61 h
          exact ⟨single_char_type c0 rest0 _ h, this⟩

/-! ## Runs on a text continued by an unknown character -/

theorem advance_extend (q : List Nat) (c : Nat) (hc : is_unknown c) (s s1 : State)
    (h : advance s = .ok s1) :
    (s1.current_token.type ≠ T_EOF ∧
      advance (extend_input (c :: q) s) = .ok (extend_input (c :: q) s1)) ∨
    (s1.current_token.type = T_EOF ∧
      advance (extend_input (c :: q) s) = .fail (.UnknownCharacter c) s.vars s.output) := by
  unfold advance at h
  cases hg : get_next_token s.input with
  | error e => rw [hg] at h; simp [raise] at h
  | ok p =>
    obtain ⟨tok, rest⟩ := p
    rw [hg] at h
    simp only [Res.ok.injEq] at h
    subst h
    rcases get_next_token_append s.input q c hc tok rest hg with ⟨hne, hr⟩ | ⟨heof, hr⟩
    · left
      refine ⟨hne, ?_⟩
      simp [advance, extend_input, hr]
    · right
      refine ⟨heof, ?_⟩
      simp [advance, extend_input, hr, raise]

theorem extend_input_token (more : List Nat) (s : State) :
    (extend_input more s).current_token = s.current_token := rfl

theorem extend_input_vars (more : List Nat) (s : State) :
    (extend_input more s).vars = s.vars := rfl

theorem extend_input_output (more : List Nat) (s : State) :
    (extend_input more s).output = s.output := rfl

theorem parse_expression_loop_terminator (fuel : Nat) (s : State) (expr : List Token)
    (r : List Token × State) (h : parse_expression_loop fuel s expr = .ok r) :
    is_terminator r.2.current_token.type = true := by
  induction fuel generalizing s expr with
  | zero => simp [parse_expression_loop] at h
  | succ fuel ih =>
    unfold parse_expression_loop at h
    by_cases ht : is_terminator s.current_token.type = true
    · simp only [ht, if_true, Res.ok.injEq] at h
      subst h; exact ht
    · simp only [ht, Bool.false_eq_true, if_false] at h
      cases ha : advance s with
      | ok s1 => rw [ha] at h; exact ih s1 _ h
      | fail e v o => rw [ha] at h; simp [Res.bind] at h
      | timeout => rw [ha] at h; simp [Res.bind] at h

theorem parse_expression_terminator (s : State) (r : List Token × State)
    (h : parse_expression s = .ok r) : is_terminator r.2.current_token.type = true :=
  parse_expression_loop_terminator _ s [] r h

theorem parse_expression_loop_extend (q : List Nat) (c : Nat) (hc : is_unknown c)
    (fuel : Nat) (s : State) (expr : List Token) (r : List Token × State)
    (hs : s.current_token.type ≠ T_EOF)
    (h : parse_expression_loop fuel s expr = .ok r) (fuel2 : Nat) (hf : fuel ≤ fuel2) :
    (r.2.current_token.type ≠ T_EOF ∧
      parse_expression_loop fuel2 (extend_input (c :: q) s) expr
        = .ok (r.1, extend_input (c :: q) r.2)) ∨
    (r.2.current_token.type = T_EOF ∧
      parse_expression_loop fuel2 (extend_input (c :: q) s) expr
        = .fail (.UnknownCharacter c) s.vars s.output) := by
  induction fuel generalizing s expr fuel2 with
  | zero => simp [parse_expression_loop] at h
  | succ fuel ih =>
    obtain ⟨fuel3, rfl⟩ : ∃ k, fuel2 = k + 1 := ⟨fuel2 - 1, by omega⟩
    have hf3 : fuel ≤ fuel3 := by omega
    unfold parse_expression_loop at h ⊢
    rw [extend_input_token]
    by_cases ht : is_terminator s.current_token.type = true
    · simp only [ht, if_true, Res.ok.injEq] at h ⊢
      subst h
      exact Or.inl ⟨hs, rfl⟩
    · simp only [ht, Bool.false_eq_true, if_false] at h ⊢
      cases ha : advance s with
      | fail e v o => rw [ha] at h; simp [Res.bind] at h
      | timeout => rw [ha] at h; simp [Res.bind] at h
      | ok s1 =>
        rw [ha] at h
        simp only [Res.bind] at h
        have hfr := advance_frame s s1 ha
        rcases advance_extend q c hc s s1 ha with ⟨hne, hr⟩ | ⟨heof, hr⟩
        · rw [hr]
          simp only [Res.bind]
          rcases ih s1 _ hne h fuel3 hf3 with ⟨h1, h2⟩ | ⟨h1, h2⟩
          · exact Or.inl ⟨h1, h2⟩
          · right
            rw [hfr.1, hfr.2] at h2
            exact ⟨h1, h2⟩
        · rw [hr]
          right
          refine ⟨?_, rfl⟩
          cases fuel with
          | zero => simp [parse_expression_loop] at h
          | succ fuel =>
            have ht1 : is_terminator s1.current_token.type = true := by
              rw [heof]; rfl
            simp only [parse_expression_loop, ht1, if_true, Res.ok.injEq] at h
            subst h
            exact heof

theorem parse_expression_extend (q : List Nat) (c : Nat) (hc : is_unknown c)
    (s : State) (r : List Token × State) (hs : s.current_token.type ≠ T_EOF)
    (h : parse_expression s = .ok r) :
    (r.2.current_token.type ≠ T_EOF ∧
      parse_expression (extend_input (c :: q) s) = .ok (r.1, extend_input (c :: q) r.2)) ∨
    (r.2.current_token.type = T_EOF ∧
      parse_expression (extend_input (c :: q) s)
        = .fail (.UnknownCharacter c) s.vars s.output) := by
  unfold parse_expression at h ⊢
  apply parse_expression_loop_extend q c hc _ s [] r hs h
  simp [extend_input]

theorem parse_expression_at_eof (s : State) (hs : s.current_token.type = T_EOF) :
    parse_expression s = .ok ([], s) := by
  simp [parse_expression, parse_expression_loop, is_terminator, hs]

theorem terminator_ne_lbrace (t : TokenType) (h : is_terminator t = true) : t ≠ T_LBRACE := by
  intro ht; rw [ht] at h; exact absurd h (by decide)

/-! ## Printing a string literal -/

theorem scan_string_run (s rest buf : List Nat) (hq : ∀ c ∈ s, c ≠ 34)
    (hlen : buf.length + s.length < MAX_TOKEN_SIZE - 1) :
    scan_string (s ++ 34 :: rest) buf = .ok (buf ++ s, rest) := by
  induction s generalizing buf with
  | nil => simp [scan_string]
  | cons d s ih =>
    have hd := hq d (List.mem_cons_self _ _)
    simp only [List.length_cons] at hlen
    have hlt : ¬ (buf.length + 1 ≥ MAX_TOKEN_SIZE - 1) := by omega
    show scan_string (d :: (s ++ 34 :: rest)) buf = _
    simp only [scan_string, hd, if_false, hlt]
    rw [ih (buf ++ [d]) (fun y hy => hq y (List.mem_cons_of_mem _ hy))
      (by simp only [List.length_append, List.length_singleton]; omega)]
    simp

theorem get_next_token_string (s rest : List Nat) (hq : ∀ c ∈ s, c ≠ 34)
    (hlen : s.length < MAX_TOKEN_SIZE - 1) :
    get_next_token (34 :: (s ++ 34 :: rest))
      = .ok ({ type := T_STRING, string := strdup s }, rest) := by
  have hrun := scan_string_run s rest [] hq (by simpa using hlen)
  simp [get_next_token, skip_space, isspace, isdigit, hrun, Except.map]

theorem interpret_print_string (fuel : Nat) (str t0 t1 t2 t3 : List Nat)
    (h1 : get_next_token t0 = .ok (op_tok T_PRINT, t1))
    (h2 : get_next_token t1 = .ok (op_tok T_LPAREN, t2))
    (h3 : get_next_token t2 = .ok ({ type := T_STRING, string := str }, t3)) :
    interpret (fuel + 1) t0 = .fail .PrintExpectedRParen empty_store (str ++ [10]) := by
  simp [interpret, initial_state, advance, h1, h2, h3, Res.bind, execute, execute_print,
    op_tok, raise]

/-- C3: for every string `s` without `"` that fits the token buffer, the program
`yap("s");` prints `s` (up to its first NUL byte) and a newline, but the print handler
does not move past the string token, so the check for `)` fails: the run ends with
"Expected ')' after print argument" and exit status 1 instead of status 0. -/
theorem C3_print_string_fails (fuel : Nat) (s : List Nat) (hq : ∀ c ∈ s, c ≠ 34)
    (hlen : s.length < MAX_TOKEN_SIZE - 1) :
    main (fuel + 1) (bytes "yap(\"" ++ (s ++ bytes "\");"))
      = .fail .PrintExpectedRParen empty_store (strdup s ++ bytes "\n") ∧
    exit_status (main (fuel + 1) (bytes "yap(\"" ++ (s ++ bytes "\");"))) = some 1 := by
  have hprog : bytes "yap(\"" ++ (s ++ bytes "\");")
      = (bytes "yap(\"" ++ (s ++ bytes "\")")) ++ 59 :: [] := by
    simp [bytes]
  have hmain : main (fuel + 1) (bytes "yap(\"" ++ (s ++ bytes "\");"))
      = interpret (fuel + 1) (bytes "yap(\"" ++ (s ++ bytes "\");")) := by
    unfold main
    rw [if_neg (by rw [hprog]; simp)]
    congr 1
    rw [hprog, trim_trailing_append _ [] 59 (by decide)]; rfl
  have h3 : get_next_token (34 :: (s ++ 34 :: bytes ");"))
      = .ok ({ type := T_STRING, string := strdup s }, bytes ");") :=
    get_next_token_string s _ hq hlen
  rw [hmain, interpret_print_string fuel (strdup s)
    (bytes "yap(\"" ++ (s ++ bytes "\");")) _ _ _ rfl rfl h3]
  exact ⟨rfl, rfl⟩

/-- C3 witness: `yap("hi");` prints `hi` and a newline and then fails. -/
theorem C3_print_string_fails_witness :
    main 1 (bytes "yap(\"hi\");")
      = .fail .PrintExpectedRParen empty_store (bytes "hi\n") ∧
    exit_status (main 1 (bytes "yap(\"hi\");")) = some 1 :=
  C3_print_string_fails 0 (bytes "hi") (by decide) (by decide)

/-! ## Every token consumes text: expression collection never exhausts its fuel -/

theorem skip_space_length (a : List Nat) : (skip_space a).length ≤ a.length := by
  induction a with
  | nil => simp [skip_space]
  | cons c a ih =>
    unfold skip_space
    split
    · simp only [List.length_cons]; omega
    · exact Nat.le_refl _

theorem scan_number_length (l : List Nat) (num : Int) :
    (scan_number l num).2.length ≤ l.length := by
  induction l generalizing num with
  | nil => simp [scan_number]
  | cons c l ih =>
    unfold scan_number
    split
    · have := ih (int_add (int_mul num 10) ((c : Int) - 48))
      simp only [List.length_cons]; omega
    · exact Nat.le_refl _

theorem scan_string_length (l buf : List Nat) (r : List Nat × List Nat)
    (h : scan_string l buf = .ok r) : r.2.length < l.length := by
  induction l generalizing buf with
  | nil => simp [scan_string] at h
  | cons c l ih =>
    unfold scan_string at h
    by_cases hq : c = 34
    · simp only [hq, if_true, Except.ok.injEq] at h
      subst h; simp
    · simp only [hq, if_false] at h
      by_cases hlen : buf.length + 1 ≥ MAX_TOKEN_SIZE - 1
      · simp [hlen] at h
      · simp only [hlen, if_false] at h
        have := ih _ h
        simp only [List.length_cons]; omega

theorem scan_ident_length (l buf : List Nat) (r : List Nat × List Nat)
    (h : scan_ident l buf = .ok r) : r.2.length ≤ l.length := by
  induction l generalizing buf with
  | nil =>
    simp only [scan_ident, Except.ok.injEq] at h
    subst h; simp
  | cons c l ih =>
    unfold scan_ident at h
    by_cases hc : (isalnum c || decide (c = 95)) = true
    · simp only [hc, if_true] at h
      by_cases hlen : buf.length + 1 ≥ MAX_TOKEN_SIZE - 1
      · simp [hlen] at h
      · simp only [hlen, if_false] at h
        have := ih _ h
        simp only [List.length_cons]; omega
    · simp only [hc, Bool.false_eq_true, if_false, Except.ok.injEq] at h
      subst h; exact Nat.le_refl _

theorem single_char_length (c0 : Nat) (rest : List Nat) (r : Token × List Nat)
    (h : single_char c0 rest = .ok r) : r.2.length ≤ rest.length := by
  by_cases h61 : c0 = 61
  · subst h61
    cases rest with
    | nil =>
      simp only [single_char, Nat.reduceEqDiff, if_false, if_true, Except.ok.injEq] at h
      subst h; simp
    | cons d rest =>
      by_cases hd : d = 61
      · subst hd
        simp only [single_char, Nat.reduceEqDiff, if_false, if_true, Except.ok.injEq] at h
        subst h; simp
      · rw [single_char_equals d rest hd] at h
        simp only [Except.ok.injEq] at h
        subst h; simp
  · rw [single_char_rest c0 _ h61] at h
    cases hs : single_char c0 [] with
    | error e => rw [hs] at h; simp [Except.map] at h
    | ok p =>
      rw [hs] at h
      simp only [Except.map, Except.ok.injEq] at h
      subst h; simp

theorem get_next_token_length (a : List Nat) (tok : Token) (r : List Nat)
    (h : get_next_token a = .ok (tok, r)) : tok.type = T_EOF ∨ r.length < a.length := by
  unfold get_next_token at h
  have hsk := skip_space_length a
  cases hs : skip_space a with
  | nil =>
    rw [hs] at h
    simp only [Except.ok.injEq, Prod.mk.injEq] at h
    left; rw [← h.1]
  | cons c rest =>
    rw [hs] at h hsk
    simp only [List.length_cons] at hsk
    right
    simp only at h
    by_cases h0 : isdigit c = true
    · simp only [h0, if_true, Except.ok.injEq, Prod.mk.injEq] at h
      have hlen := scan_number_length rest (int_add (int_mul 0 10) ((c : Int) - 48))
      have hstep : scan_number (c :: rest) 0
          = scan_number rest (int_add (int_mul 0 10) ((c : Int) - 48)) := by
        simp [scan_number, h0]
      rw [hstep] at h
      rw [← h.2]; omega
    · simp only [h0, Bool.false_eq_true, if_false] at h
      by_cases h1 : c = 34
      · simp only [h1, if_true] at h
        cases hstr : scan_string rest [] with
        | error e => rw [hstr] at h; simp [Except.map] at h
        | ok p =>
          rw [hstr] at h
          simp only [Except.map, Except.ok.injEq, Prod.mk.injEq] at h
          have := scan_string_length rest [] p hstr
          rw [← h.2]; omega
      · simp only [h1, if_false] at h
        by_cases h2 : isalpha c = true
        · simp only [h2, if_true] at h
          cases hidn : scan_ident (c :: rest) [] with
          | error e => rw [hidn] at h; simp [Except.map] at h
          | ok p =>
            rw [hidn] at h
            simp only [Except.map, Except.ok.injEq, Prod.mk.injEq] at h
            have hstep : scan_ident (c :: rest) [] = scan_ident rest [c] := by
              simp [scan_ident, isalnum, h2, MAX_TOKEN_SIZE]
            rw [hstep] at hidn
            have := scan_ident_length rest [c] p hidn
            rw [← h.2]; omega
        · simp only [h2, Bool.false_eq_true, if_false] at h
          have := single_char_length c rest _ h
          simp only at this
          omega

theorem advance_not_timeout (s : State) : advance s ≠ .timeout := by
  unfold advance
  split <;> simp [raise]

theorem parse_expression_loop_not_timeout (fuel : Nat) (s : State) (expr : List Token)
    (hf : s.input.length + 2 ≤ fuel ∨
      (is_terminator s.current_token.type = true ∧ 1 ≤ fuel)) :
    parse_expression_loop fuel s expr ≠ .timeout := by
  induction fuel generalizing s expr with
  | zero => omega
  | succ fuel ih =>
    unfold parse_expression_loop
    by_cases ht : is_terminator s.current_token.type = true
    · simp [ht]
    · simp only [ht, Bool.false_eq_true, if_false]
      have hlen : s.input.length + 2 ≤ fuel + 1 := by
        rcases hf with hf | hf
        · exact hf
        · exact absurd hf.1 ht
      unfold advance
      cases hg : get_next_token s.input with
      | error e => simp [raise, Res.bind]
      | ok p =>
        obtain ⟨tok, rest⟩ := p
        simp only [Res.bind]
        apply ih
        rcases get_next_token_length s.input tok rest hg with heof | hlt
        · right
          refine ⟨?_, by omega⟩
          simp [is_terminator, heof]
        · left
          simp only
          omega

theorem parse_expression_not_timeout (s : State) : parse_expression s ≠ .timeout :=
  parse_expression_loop_not_timeout _ s [] (Or.inl (Nat.le_refl _))

/-! ## Conditional with a true condition -/

/-- C11: whatever body and rest follow `based (1)`, the conditional handler still has
`)` as current token when it checks for `{`, so the run ends with "Expected '{' after
if condition" before any statement of the body runs; in particular
`based (1) { yap(1); } yap(2);` prints nothing and ends with exit status 1 instead of
printing 1 and 2. -/
theorem C11_conditional_true_fails (fuel : Nat) (more : List Nat) :
    interpret (fuel + 1) (bytes "based (1)" ++ more)
      = .fail .IfExpectedLBrace empty_store [] ∧
    main (fuel + 1) (bytes "based (1) \x7b yap(1); \x7d yap(2);")
      = .fail .IfExpectedLBrace empty_store [] ∧
    exit_status (main (fuel + 1) (bytes "based (1) \x7b yap(1); \x7d yap(2);")) = some 1 ∧
    stdout_of (main (fuel + 1) (bytes "based (1) \x7b yap(1); \x7d yap(2);")) = some [] :=
  ⟨rfl, rfl, rfl, rfl⟩

/-! ## Tokens that the evaluator rejects -/

theorem eval_step_invalid (vars : Store) (st : Int × TokenType) (tok : Token)
    (h : ¬ is_expr_token tok.type) : eval_step vars st tok = .error .InvalidToken := by
  unfold eval_step
  cases ht : tok.type <;> simp [is_expr_token, is_arith, ht] at h ⊢

theorem eval_tokens_ok_kinds (vars : Store) (expr : List Token) (st st1 : Int × TokenType)
    (h : eval_tokens vars expr st = .ok st1) : ∀ tok ∈ expr, is_expr_token tok.type := by
  induction expr generalizing st with
  | nil => intro tok htok; cases htok
  | cons t expr ih =>
    simp only [eval_tokens] at h
    cases hs : eval_step vars st t with
    | error e => rw [hs] at h; simp [Except.bind] at h
    | ok st2 =>
      rw [hs] at h
      intro tok htok
      rcases List.mem_cons.mp htok with rfl | htok
      · by_contra hn
        rw [eval_step_invalid vars st tok hn] at hs
        cases hs
      · exact ih st2 h tok htok

theorem evaluate_ok_kinds (vars : Store) (expr : List Token) (v : Int)
    (h : evaluate_expression vars expr = .ok v) : ∀ tok ∈ expr, is_expr_token tok.type := by
  unfold evaluate_expression at h
  cases he : eval_tokens vars expr (0, T_EOF) with
  | error e => rw [he] at h; simp [Except.map] at h
  | ok st => exact eval_tokens_ok_kinds vars expr _ st he

/-- C12: `evaluate_expression` returns a value only if every token is an integer
literal, an identifier or one of `+ - * / %`; a sequence that contains any other token
makes it fail, and it fails with "Invalid token in expression" whenever the tokens
before the first such token evaluate without error; `1 < 2` and `1 == 1` fail so. -/
theorem C12_only_operands_and_operators (vars : Store) (expr : List Token) :
    (∀ v, evaluate_expression vars expr = .ok v → ∀ tok ∈ expr, is_expr_token tok.type) ∧
    ((∃ tok ∈ expr, ¬ is_expr_token tok.type) →
      ∃ e, evaluate_expression vars expr = .error e) ∧
    (∀ before tok after st, expr = before ++ tok :: after → ¬ is_expr_token tok.type →
      eval_tokens vars before (0, T_EOF) = .ok st →
      evaluate_expression vars expr = .error .InvalidToken) ∧
    evaluate_expression vars [num_tok 1, op_tok T_LESS, num_tok 2] = .error .InvalidToken ∧
    evaluate_expression vars [num_tok 1, op_tok T_EQUAL_COMPARE, num_tok 1]
      = .error .InvalidToken := by
  refine ⟨fun v h => evaluate_ok_kinds vars expr v h, ?_, ?_, rfl, rfl⟩
  · rintro ⟨tok, hmem, hbad⟩
    cases he : evaluate_expression vars expr with
    | error e => exact ⟨e, rfl⟩
    | ok v => exact absurd (evaluate_ok_kinds vars expr v he tok hmem) hbad
  · intro before tok after st hexpr hbad hpre
    subst hexpr
    simp [evaluate_expression, eval_tokens_append, hpre, Except.bind, eval_tokens,
      eval_step_invalid vars st tok hbad, Except.map]

/-! ## Consecutive operators and leading operators -/

theorem eval_step_arith (vars : Store) (st : Int × TokenType) (tok : Token)
    (h : is_arith tok.type) : eval_step vars st tok = .ok (st.1, tok.type) := by
  unfold eval_step
  rcases h with h | h | h | h | h <;> simp [h]

/-- C16: deleting an arithmetic-operator token that is immediately followed by another
arithmetic-operator token does not change the outcome of `evaluate_expression` (same
value or same failure): only the last of consecutive operators is applied. -/
theorem C16_consecutive_operators (vars : Store) (before after : List Token)
    (op1 op2 : Token) (h1 : is_arith op1.type) (h2 : is_arith op2.type) :
    evaluate_expression vars (before ++ op1 :: op2 :: after)
      = evaluate_expression vars (before ++ op2 :: after) := by
  unfold evaluate_expression
  rw [eval_tokens_append, eval_tokens_append]
  cases hpre : eval_tokens vars before (0, T_EOF) with
  | error e => rfl
  | ok st =>
    simp only [Except.bind, eval_tokens, eval_step_arith vars st op1 h1,
      eval_step_arith vars (st.1, op1.type) op2 h2, eval_step_arith vars st op2 h2]

/-- C16 witness: `2 + * 3` evaluates like `2 * 3`, to 6, and `2 * - 3` evaluates like
`2 - 3`, to -1. -/
theorem C16_consecutive_operators_witness :
    (evaluate_expression empty_store
        ([num_tok 2] ++ op_tok T_PLUS :: op_tok T_MULTIPLY :: [num_tok 3])
        = evaluate_expression empty_store ([num_tok 2] ++ op_tok T_MULTIPLY :: [num_tok 3]) ∧
      evaluate_expression empty_store
        [num_tok 2, op_tok T_PLUS, op_tok T_MULTIPLY, num_tok 3] = .ok 6) ∧
    (evaluate_expression empty_store
        ([num_tok 2] ++ op_tok T_MULTIPLY :: op_tok T_MINUS :: [num_tok 3])
        = evaluate_expression empty_store ([num_tok 2] ++ op_tok T_MINUS :: [num_tok 3]) ∧
      evaluate_expression empty_store
        [num_tok 2, op_tok T_MULTIPLY, op_tok T_MINUS, num_tok 3] = .ok (-1)) :=
  ⟨⟨C16_consecutive_operators empty_store [num_tok 2] [num_tok 3] (op_tok T_PLUS)
      (op_tok T_MULTIPLY) (by decide) (by decide), rfl⟩,
   ⟨C16_consecutive_operators empty_store [num_tok 2] [num_tok 3] (op_tok T_MULTIPLY)
      (op_tok T_MINUS) (by decide) (by decide), rfl⟩⟩

/-- C20: an expression that begins with an arithmetic operator is accepted (the
operator becomes the pending operator over the initial result 0) and has the same
outcome as the same expression behind the literal 0; in particular `- n` evaluates to
`-n` for a literal `0 ≤ n ≤ 2147483647` and `* n` evaluates to 0. -/
theorem C20_leading_operator (vars : Store) (op : Token) (rest : List Token)
    (h : is_arith op.type) :
    eval_tokens vars [op] (0, T_EOF) = .ok (0, op.type) ∧
    evaluate_expression vars (op :: rest)
      = evaluate_expression vars (num_tok 0 :: op :: rest) ∧
    (∀ n : Int, 0 ≤ n → n ≤ 2147483647 →
      evaluate_expression vars [op_tok T_MINUS, num_tok n] = .ok (-n)) ∧
    (∀ n : Int, evaluate_expression vars [op_tok T_MULTIPLY, num_tok n] = .ok 0) := by
  refine ⟨?_, ?_, ?_, ?_⟩
  · simp only [eval_tokens, eval_step_arith vars (0, T_EOF) op h, Except.bind]
  · unfold evaluate_expression
    have h0 : eval_step vars (0, T_EOF) (num_tok 0) = .ok (0, T_EOF) := rfl
    simp only [eval_tokens, h0, Except.bind]
  · intro n hn0 hn1
    have hw : wrap32 (-n) = -n := by unfold wrap32; omega
    simp [evaluate_expression, eval_tokens, eval_step, op_tok, num_tok, apply_number,
      int_sub, hw, Except.bind, Except.map]
  · intro n
    simp [evaluate_expression, eval_tokens, eval_step, op_tok, num_tok, apply_number,
      int_mul, wrap32, Except.bind, Except.map]

/-- C20 witness: `- 5` evaluates like `0 - 5`, to -5, and `* 5` like `0 * 5`, to 0. -/
theorem C20_leading_operator_witness :
    (evaluate_expression empty_store (op_tok T_MINUS :: [num_tok 5])
        = evaluate_expression empty_store (num_tok 0 :: op_tok T_MINUS :: [num_tok 5]) ∧
      evaluate_expression empty_store [op_tok T_MINUS, num_tok 5] = .ok (-5)) ∧
    evaluate_expression empty_store [op_tok T_MULTIPLY, num_tok 5] = .ok 0 :=
  ⟨⟨(C20_leading_operator empty_store (op_tok T_MINUS) [num_tok 5] (by decide)).2.1,
     rfl⟩, rfl⟩

/-! ## Writes leave other names alone -/

theorem chain_find_update_other (n m : List Nat) (value : Int) (chain updated : List Variable)
    (hnm : n ≠ m) (h : chain_update n value chain = some updated) :
    chain_find m updated = chain_find m chain := by
  induction chain generalizing updated with
  | nil => simp [chain_update] at h
  | cons var next ih =>
    by_cases hn : var.name = n
    · simp only [chain_update, if_pos hn, Option.some.injEq] at h
      subst h
      have hvm : ¬ var.name = m := fun hvm => hnm (hn.symm.trans hvm)
      simp [chain_find, hvm]
    · simp only [chain_update, if_neg hn, Option.map_eq_some'] at h
      obtain ⟨l, hl, rfl⟩ := h
      simp only [chain_find, ih l hl]

/-- C19: `set_variable(n, v)` changes only the binding of `n`: for every other name
`m` the outcome of `get_variable(m)` (its value, or the "Undefined variable" failure)
is the same after the call as before, also when `n` and `m` share a bucket. -/
theorem C19_set_variable_frame (vars : Store) (n m : List Nat) (v : Int) (h : n ≠ m) :
    get_variable (set_variable vars n v) m = get_variable vars m := by
  have key : chain_find m (set_variable vars n v (hash m)) = chain_find m (vars (hash m)) := by
    by_cases hm : hash m = hash n
    · rw [hm]
      rcases set_variable_bucket vars n v with ⟨chain, hc, hs⟩ | ⟨_, hs⟩
      · rw [hs]; exact chain_find_update_other n m v _ chain h hc
      · rw [hs]; simp [chain_find, h]
    · rw [set_variable_other vars n v (hash m) hm]
  unfold get_variable
  rw [key]

/-- C19 witness: `x` and `lt` hash to the same bucket; writing `x` leaves the value of
`lt` alone, and leaves the equally colliding unbound name `cn` undefined. -/
theorem C19_set_variable_frame_witness :
    (hash (bytes "x") = hash (bytes "lt") ∧
      get_variable (set_variable (set_variable empty_store (bytes "lt") 7) (bytes "x") 1)
        (bytes "lt") = .ok 7) ∧
    (hash (bytes "x") = hash (bytes "cn") ∧
      get_variable (set_variable (set_variable empty_store (bytes "lt") 7) (bytes "x") 1)
        (bytes "cn") = .error .UndefinedVariable) :=
  ⟨⟨by decide,
    C19_set_variable_frame (set_variable empty_store (bytes "lt") 7) (bytes "x") (bytes "lt")
      1 (by decide)⟩,
   ⟨by decide,
    C19_set_variable_frame (set_variable empty_store (bytes "lt") 7) (bytes "x") (bytes "cn")
      1 (by decide)⟩⟩

/-! ## Which failures each piece can raise -/

theorem scan_string_error (l buf : List Nat) (e : Err) (h : scan_string l buf = .error e) :
    is_lexical_error e = true := by
  induction l generalizing buf with
  | nil => simp only [scan_string, Except.error.injEq] at h; subst h; rfl
  | cons c l ih =>
    unfold scan_string at h
    by_cases hq : c = 34
    · simp [hq] at h
    · simp only [hq, if_false] at h
      by_cases hlen : buf.length + 1 ≥ MAX_TOKEN_SIZE - 1
      · simp only [hlen, if_true, Except.error.injEq] at h; subst h; rfl
      · simp only [hlen, if_false] at h
        exact ih _ h

theorem scan_ident_error (l buf : List Nat) (e : Err) (h : scan_ident l buf = .error e) :
    is_lexical_error e = true := by
  induction l generalizing buf with
  | nil => simp [scan_ident] at h
  | cons c l ih =>
    unfold scan_ident at h
    by_cases hc : (isalnum c || decide (c = 95)) = true
    · simp only [hc, if_true] at h
      by_cases hlen : buf.length + 1 ≥ MAX_TOKEN_SIZE - 1
      · simp only [hlen, if_true, Except.error.injEq] at h; subst h; rfl
      · simp only [hlen, if_false] at h
        exact ih _ h
    · simp [hc] at h

theorem single_char_error (c0 : Nat) (rest : List Nat) (e : Err)
    (h : single_char c0 rest = .error e) : is_lexical_error e = true := by
  by_cases h61 : c0 = 61
  · subst h61
    cases rest with
    | nil => simp [single_char] at h
    | cons d rest =>
      by_cases hd : d = 61
      · subst hd; simp [single_char] at h
      · rw [single_char_equals d rest hd] at h; cases h
  · cases hu : single_char c0 rest with
    | ok r => rw [hu] at h; cases h
    | error e2 =>
      rw [hu] at h
      cases h
      unfold single_char at hu
      rw [if_neg h61] at hu
      by_cases h0 : c0 = 40
      · rw [if_pos h0] at hu; cases hu
      rw [if_neg h0] at hu
      by_cases h1 : c0 = 41
      · rw [if_pos h1] at hu; cases hu
      rw [if_neg h1] at hu
      by_cases h2 : c0 = 123
      · rw [if_pos h2] at hu; cases hu
      rw [if_neg h2] at hu
      by_cases h3 : c0 = 125
      · rw [if_pos h3] at hu; cases hu
      rw [if_neg h3] at hu
      by_cases h4 : c0 = 59
      · rw [if_pos h4] at hu; cases hu
      rw [if_neg h4] at hu
      by_cases h5 : c0 = 43
      · rw [if_pos h5] at hu; cases hu
      rw [if_neg h5] at hu
      by_cases h6 : c0 = 45
      · rw [if_pos h6] at hu; cases hu
      rw [if_neg h6] at hu
      by_cases h7 : c0 = 42
      · rw [if_pos h7] at hu; cases hu
      rw [if_neg h7] at hu
      by_cases h8 : c0 = 47
      · rw [if_pos h8] at hu; cases hu
      rw [if_neg h8] at hu
      by_cases h9 : c0 = 37
      · rw [if_pos h9] at hu; cases hu
      rw [if_neg h9] at hu
      by_cases h10 : c0 = 60
      · rw [if_pos h10] at hu; cases hu
      rw [if_neg h10] at hu
      by_cases h11 : c0 = 62
      · rw [if_pos h11] at hu; cases hu
      rw [if_neg h11] at hu
      cases hu
      rfl

theorem get_next_token_error (a : List Nat) (e : Err) (h : get_next_token a = .error e) :
    is_lexical_error e = true := by
  unfold get_next_token at h
  cases hs : skip_space a with
  | nil => rw [hs] at h; cases h
  | cons c rest =>
    rw [hs] at h
    simp only at h
    by_cases h0 : isdigit c = true
    · simp [h0] at h
    · simp only [h0, Bool.false_eq_true, if_false] at h
      by_cases h1 : c = 34
      · simp only [h1, if_true] at h
        cases hstr : scan_string rest [] with
        | error e2 =>
          rw [hstr] at h
          simp only [Except.map, Except.error.injEq] at h
          subst h
          exact scan_string_error rest [] _ hstr
        | ok p => rw [hstr] at h; simp [Except.map] at h
      · simp only [h1, if_false] at h
        by_cases h2 : isalpha c = true
        · simp only [h2, if_true] at h
          cases hidn : scan_ident (c :: rest) [] with
          | error e2 =>
            rw [hidn] at h
            simp only [Except.map, Except.error.injEq] at h
            subst h
            exact scan_ident_error _ [] _ hidn
          | ok p => rw [hidn] at h; simp [Except.map] at h
        · simp only [h2, Bool.false_eq_true, if_false] at h
          exact single_char_error c rest e h

theorem advance_fail (s : State) (e : Err) (v : Store) (o : List Nat)
    (h : advance s = .fail e v o) :
    is_lexical_error e = true ∧ v = s.vars ∧ o = s.output := by
  unfold advance at h
  cases hg : get_next_token s.input with
  | ok p => rw [hg] at h; cases h
  | error e2 =>
    rw [hg] at h
    simp only [raise, Res.fail.injEq] at h
    obtain ⟨rfl, rfl, rfl⟩ := h
    exact ⟨get_next_token_error _ _ hg, rfl, rfl⟩

theorem parse_expression_loop_fail (fuel : Nat) (s : State) (expr : List Token) (e : Err)
    (v : Store) (o : List Nat) (h : parse_expression_loop fuel s expr = .fail e v o) :
    is_lexical_error e = true ∧ v = s.vars ∧ o = s.output := by
  induction fuel generalizing s expr with
  | zero => simp [parse_expression_loop] at h
  | succ fuel ih =>
    unfold parse_expression_loop at h
    by_cases ht : is_terminator s.current_token.type = true
    · simp [ht] at h
    · simp only [ht, Bool.false_eq_true, if_false] at h
      cases ha : advance s with
      | ok s1 =>
        rw [ha] at h
        have hfr := advance_frame s s1 ha
        have := ih s1 _ h
        exact ⟨this.1, this.2.1.trans hfr.1, this.2.2.trans hfr.2⟩
      | fail e2 v2 o2 =>
        rw [ha] at h
        simp only [Res.bind, Res.fail.injEq] at h
        obtain ⟨rfl, rfl, rfl⟩ := h
        exact advance_fail s _ _ _ ha
      | timeout => rw [ha] at h; simp [Res.bind] at h

theorem parse_expression_fail (s : State) (e : Err) (v : Store) (o : List Nat)
    (h : parse_expression s = .fail e v o) :
    is_lexical_error e = true ∧ v = s.vars ∧ o = s.output :=
  parse_expression_loop_fail _ s [] e v o h

theorem apply_number_error (last_op : TokenType) (result v : Int) (e : Err)
    (h : apply_number last_op result v = .error e) :
    is_evaluation_error e = true ∨ e = .ArithmeticTrap := by
  unfold apply_number int_div int_mod at h
  repeat' split at h
  all_goals (cases h <;> first | exact Or.inl rfl | exact Or.inr rfl)

theorem get_variable_error (vars : Store) (name : List Nat) (e : Err)
    (h : get_variable vars name = .error e) : e = .UndefinedVariable := by
  unfold get_variable at h
  split at h
  · cases h
  · simp only [Except.error.injEq] at h; exact h.symm

theorem apply_id_error (vars : Store) (last_op : TokenType) (result : Int) (name : List Nat)
    (e : Err) (h : apply_id vars last_op result name = .error e) :
    is_evaluation_error e = true ∨ e = .ArithmeticTrap := by
  unfold apply_id int_div int_mod at h
  cases hg : get_variable vars name with
  | error e2 =>
    have he2 := get_variable_error vars name e2 hg
    subst he2
    rw [hg] at h
    repeat' split at h
    all_goals (cases h <;> exact Or.inl rfl)
  | ok v =>
    rw [hg] at h
    simp only [Except.map, Except.bind] at h
    repeat' split at h
    all_goals (cases h <;> first | exact Or.inl rfl | exact Or.inr rfl)

theorem eval_step_error (vars : Store) (st : Int × TokenType) (tok : Token) (e : Err)
    (h : eval_step vars st tok = .error e) :
    is_evaluation_error e = true ∨ e = .ArithmeticTrap := by
  unfold eval_step at h
  split at h
  · cases ha : apply_number st.2 st.1 tok.number with
    | ok v => rw [ha] at h; cases h
    | error e2 =>
      rw [ha] at h
      simp only [Except.map, Except.error.injEq] at h
      subst h
      exact apply_number_error _ _ _ _ ha
  · cases ha : apply_id vars st.2 st.1 tok.string with
    | ok v => rw [ha] at h; cases h
    | error e2 =>
      rw [ha] at h
      simp only [Except.map, Except.error.injEq] at h
      subst h
      exact apply_id_error _ _ _ _ _ ha
  all_goals (cases h <;> exact Or.inl rfl)

theorem eval_tokens_error (vars : Store) (expr : List Token) (st : Int × TokenType)
    (e : Err) (h : eval_tokens vars expr st = .error e) :
    is_evaluation_error e = true ∨ e = .ArithmeticTrap := by
  induction expr generalizing st with
  | nil => cases h
  | cons t expr ih =>
    simp only [eval_tokens] at h
    cases hs : eval_step vars st t with
    | error e2 =>
      rw [hs] at h
      simp only [Except.bind, Except.error.injEq] at h
      subst h
      exact eval_step_error vars st t _ hs
    | ok st2 => rw [hs] at h; exact ih st2 h

theorem evaluate_fail (s : State) (expr : List Token) (e : Err) (v : Store) (o : List Nat)
    (h : evaluate s expr = .fail e v o) :
    (is_evaluation_error e = true ∨ e = .ArithmeticTrap) ∧ v = s.vars ∧ o = s.output := by
  unfold evaluate evaluate_expression at h
  cases he : eval_tokens s.vars expr (0, T_EOF) with
  | ok st => rw [he] at h; simp [Except.map] at h
  | error e2 =>
    rw [he] at h
    simp only [Except.map, raise, Res.fail.injEq] at h
    obtain ⟨rfl, rfl, rfl⟩ := h
    exact ⟨eval_tokens_error _ _ _ _ he, rfl, rfl⟩

theorem evaluate_not_timeout (s : State) (expr : List Token) :
    evaluate s expr ≠ .timeout := by
  unfold evaluate
  split <;> simp [raise]

/-! ## Loop and conditional statements never get to their body -/

theorem execute_loop_fails (s : State) :
    ∃ e, (∀ (exec : State → Res State) (fuel : Nat),
        execute_loop exec fuel s = .fail e s.vars s.output) ∧
      (is_lexical_error e = true ∨ is_expected_error e = true) := by
  cases ha : advance s with
  | timeout => exact absurd ha (advance_not_timeout s)
  | fail e v o =>
    obtain ⟨hl, rfl, rfl⟩ := advance_fail s e v o ha
    exact ⟨e, fun exec fuel => by simp [execute_loop, ha, Res.bind], Or.inl hl⟩
  | ok sa =>
  have fa := advance_frame s sa ha
  by_cases hlp : sa.current_token.type = T_LPAREN
  swap
  · exact ⟨.LoopExpectedLParen, fun exec fuel => by
      simp [execute_loop, ha, Res.bind, hlp, raise, fa.1, fa.2], Or.inr rfl⟩
  cases hb : advance sa with
  | timeout => exact absurd hb (advance_not_timeout sa)
  | fail e v o =>
    obtain ⟨hl, rfl, rfl⟩ := advance_fail sa e v o hb
    exact ⟨e, fun exec fuel => by
      simp [execute_loop, ha, Res.bind, hlp, hb, fa.1, fa.2], Or.inl hl⟩
  | ok sb =>
  have fb := advance_frame sa sb hb
  cases hp : parse_expression sb with
  | timeout => exact absurd hp (parse_expression_not_timeout sb)
  | fail e v o =>
    obtain ⟨hl, rfl, rfl⟩ := parse_expression_fail sb e v o hp
    exact ⟨e, fun exec fuel => by
      simp [execute_loop, ha, Res.bind, hlp, hb, hp, fa.1, fa.2, fb.1, fb.2], Or.inl hl⟩
  | ok r =>
  have fr := parse_expression_frame sb r hp
  have hne := terminator_ne_lbrace _ (parse_expression_terminator sb r hp)
  exact ⟨.LoopExpectedLBrace, fun exec fuel => by
    simp [execute_loop, ha, Res.bind, hlp, hb, hp, hne, raise, fa.1, fa.2, fb.1, fb.2,
      fr.1, fr.2], Or.inr rfl⟩

theorem execute_if_fails (s : State) :
    ∃ e, (∀ (exec : State → Res State) (fuel : Nat),
        execute_if exec fuel s = .fail e s.vars s.output) ∧
      (is_lexical_error e = true ∨ is_evaluation_error e = true ∨
        is_expected_error e = true ∨ e = .ArithmeticTrap) := by
  cases ha : advance s with
  | timeout => exact absurd ha (advance_not_timeout s)
  | fail e v o =>
    obtain ⟨hl, rfl, rfl⟩ := advance_fail s e v o ha
    exact ⟨e, fun exec fuel => by simp [execute_if, ha, Res.bind], Or.inl hl⟩
  | ok sa =>
  have fa := advance_frame s sa ha
  by_cases hlp : sa.current_token.type = T_LPAREN
  swap
  · exact ⟨.IfExpectedLParen, fun exec fuel => by
      simp [execute_if, ha, Res.bind, hlp, raise, fa.1, fa.2], Or.inr (Or.inr (Or.inl rfl))⟩
  cases hb : advance sa with
  | timeout => exact absurd hb (advance_not_timeout sa)
  | fail e v o =>
    obtain ⟨hl, rfl, rfl⟩ := advance_fail sa e v o hb
    exact ⟨e, fun exec fuel => by
      simp [execute_if, ha, Res.bind, hlp, hb, fa.1, fa.2], Or.inl hl⟩
  | ok sb =>
  have fb := advance_frame sa sb hb
  cases hp : parse_expression sb with
  | timeout => exact absurd hp (parse_expression_not_timeout sb)
  | fail e v o =>
    obtain ⟨hl, rfl, rfl⟩ := parse_expression_fail sb e v o hp
    exact ⟨e, fun exec fuel => by
      simp [execute_if, ha, Res.bind, hlp, hb, hp, fa.1, fa.2, fb.1, fb.2], Or.inl hl⟩
  | ok r =>
  have fr := parse_expression_frame sb r hp
  have hne := terminator_ne_lbrace _ (parse_expression_terminator sb r hp)
  cases he : evaluate r.2 r.1 with
  | timeout => exact absurd he (evaluate_not_timeout _ _)
  | fail e v o =>
    obtain ⟨hl, rfl, rfl⟩ := evaluate_fail r.2 r.1 e v o he
    exact ⟨e, fun exec fuel => by
      simp [execute_if, ha, Res.bind, hlp, hb, hp, he, fa.1, fa.2, fb.1, fb.2, fr.1, fr.2],
      Or.inr (hl.elim Or.inl (fun ht => Or.inr (Or.inr ht)))⟩
  | ok c =>
  exact ⟨.IfExpectedLBrace, fun exec fuel => by
    simp [execute_if, ha, Res.bind, hlp, hb, hp, he, hne, raise, fa.1, fa.2, fb.1, fb.2,
      fr.1, fr.2], Or.inr (Or.inr (Or.inl rfl))⟩

set_option maxRecDepth 8192 in
theorem main_trap_in_condition (fuel : Nat) :
    main (fuel + 2) trap_in_condition
      = .fail .ArithmeticTrap (set_variable empty_store (bytes "m") (-1)) [] := rfl

theorem get_next_token_eof_rest (a : List Nat) (tok : Token) (r : List Nat)
    (h : get_next_token a = .ok (tok, r)) (heof : tok.type = T_EOF) : r = [] := by
  unfold get_next_token at h
  cases hs : skip_space a with
  | nil =>
    rw [hs] at h
    simp only [Except.ok.injEq, Prod.mk.injEq] at h
    exact h.2.symm
  | cons c rest =>
    rw [hs] at h
    simp only at h
    exfalso
    by_cases h0 : isdigit c = true
    · simp only [h0, if_true, Except.ok.injEq, Prod.mk.injEq] at h
      rw [← h.1] at heof; cases heof
    · simp only [h0, Bool.false_eq_true, if_false] at h
      by_cases h1 : c = 34
      · simp only [h1, if_true] at h
        cases hstr : scan_string rest [] with
        | error e => rw [hstr] at h; simp [Except.map] at h
        | ok p =>
          rw [hstr] at h
          simp only [Except.map, Except.ok.injEq, Prod.mk.injEq] at h
          rw [← h.1] at heof; cases heof
      · simp only [h1, if_false] at h
        by_cases h2 : isalpha c = true
        · simp only [h2, if_true] at h
          cases hidn : scan_ident (c :: rest) [] with
          | error e => rw [hidn] at h; simp [Except.map] at h
          | ok p =>
            rw [hidn] at h
            simp only [Except.map, Except.ok.injEq, Prod.mk.injEq] at h
            rw [← h.1] at heof
            exact classify_word_type _ heof
        · simp only [h2, Bool.false_eq_true, if_false] at h
          exact single_char_type c rest _ h heof

theorem advance_length (s s1 : State) (h : advance s = .ok s1) :
    s1.input.length ≤ s.input.length ∧
    (s1.current_token.type ≠ T_EOF → s1.input.length < s.input.length) := by
  unfold advance at h
  cases hg : get_next_token s.input with
  | error e => rw [hg] at h; simp [raise] at h
  | ok p =>
    obtain ⟨tok, rest⟩ := p
    rw [hg] at h
    simp only [Res.ok.injEq] at h
    subst h
    rcases get_next_token_length s.input tok rest hg with heof | hlt
    · have := get_next_token_eof_rest s.input tok rest hg heof
      subst this
      exact ⟨Nat.zero_le _, fun hne => absurd heof hne⟩
    · exact ⟨Nat.le_of_lt hlt, fun _ => hlt⟩

theorem parse_expression_loop_length (fuel : Nat) (s : State) (expr : List Token)
    (r : List Token × State) (h : parse_expression_loop fuel s expr = .ok r) :
    r.2.input.length ≤ s.input.length := by
  induction fuel generalizing s expr with
  | zero => simp [parse_expression_loop] at h
  | succ fuel ih =>
    unfold parse_expression_loop at h
    by_cases ht : is_terminator s.current_token.type = true
    · simp only [ht, if_true, Res.ok.injEq] at h
      subst h; exact Nat.le_refl _
    · simp only [ht, Bool.false_eq_true, if_false] at h
      cases ha : advance s with
      | ok s1 =>
        rw [ha] at h
        exact Nat.le_trans (ih s1 _ h) (advance_length s s1 ha).1
      | fail e v o => rw [ha] at h; simp [Res.bind] at h
      | timeout => rw [ha] at h; simp [Res.bind] at h

theorem execute_print_progress (s s1 : State) (h : execute_print s = .ok s1) :
    s1.input.length < s.input.length := by
  unfold execute_print at h
  cases ha : advance s with
  | fail e v o => rw [ha] at h; simp [Res.bind] at h
  | timeout => rw [ha] at h; simp [Res.bind] at h
  | ok sa =>
  rw [ha] at h
  simp only [Res.bind] at h
  by_cases hlp : sa.current_token.type = T_LPAREN
  swap
  · simp [hlp, raise] at h
  have hlt := (advance_length s sa ha).2 (by rw [hlp]; decide)
  simp only [hlp, ne_eq, not_true_eq_false, if_false] at h
  cases hb : advance sa with
  | fail e v o => rw [hb] at h; simp at h
  | timeout => rw [hb] at h; simp at h
  | ok sb =>
  rw [hb] at h
  simp only at h
  have hle := (advance_length sa sb hb).1
  by_cases hstr : sb.current_token.type = T_STRING
  · simp [hstr, Res.bind, raise] at h
  simp only [hstr, if_false] at h
  cases hp : parse_expression sb with
  | fail e v o => rw [hp] at h; simp [Res.bind] at h
  | timeout => rw [hp] at h; simp [Res.bind] at h
  | ok r =>
  rw [hp] at h
  simp only [Res.bind] at h
  have hle2 := parse_expression_loop_length _ sb [] r hp
  cases he : evaluate r.2 r.1 with
  | fail e v o => rw [he] at h; simp at h
  | timeout => rw [he] at h; simp at h
  | ok result =>
  rw [he] at h
  simp only at h
  by_cases hrp : r.2.current_token.type = T_RPAREN
  swap
  · simp [hrp, raise] at h
  simp only [hrp, ne_eq, not_true_eq_false, if_false] at h
  cases hd : advance { r.2 with output := r.2.output ++ print_int result ++ [10] } with
  | fail e v o => rw [hd] at h; simp at h
  | timeout => rw [hd] at h; simp at h
  | ok sd =>
  rw [hd] at h
  simp only at h
  have hle3 := (advance_length _ sd hd).1
  simp only at hle3
  by_cases hsc : sd.current_token.type = T_SEMICOLON
  swap
  · simp [hsc, raise] at h
  simp only [hsc, ne_eq, not_true_eq_false, if_false] at h
  have hle4 := (advance_length sd s1 h).1
  omega

theorem execute_set_progress (s s1 : State) (h : execute_set s = .ok s1) :
    s1.input.length < s.input.length := by
  unfold execute_set at h
  cases ha : advance s with
  | fail e v o => rw [ha] at h; simp [Res.bind] at h
  | timeout => rw [ha] at h; simp [Res.bind] at h
  | ok sa =>
  rw [ha] at h
  simp only [Res.bind] at h
  by_cases hid : sa.current_token.type = T_ID
  swap
  · simp [hid, raise] at h
  have hlt := (advance_length s sa ha).2 (by rw [hid]; decide)
  simp only [hid, ne_eq, not_true_eq_false, if_false] at h
  cases hb : advance sa with
  | fail e v o => rw [hb] at h; simp at h
  | timeout => rw [hb] at h; simp at h
  | ok sb =>
  rw [hb] at h
  simp only at h
  have hle := (advance_length sa sb hb).1
  by_cases heq : sb.current_token.type = T_EQUALS
  swap
  · simp [heq, raise] at h
  simp only [heq, not_true_eq_false, if_false] at h
  cases hcc : advance sb with
  | fail e v o => rw [hcc] at h; simp at h
  | timeout => rw [hcc] at h; simp at h
  | ok sc =>
  rw [hcc] at h
  simp only at h
  have hle1 := (advance_length sb sc hcc).1
  cases hp : parse_expression sc with
  | fail e v o => rw [hp] at h; simp at h
  | timeout => rw [hp] at h; simp at h
  | ok r =>
  rw [hp] at h
  simp only at h
  have hle2 := parse_expression_loop_length _ sc [] r hp
  cases he : evaluate r.2 r.1 with
  | fail e v o => rw [he] at h; simp at h
  | timeout => rw [he] at h; simp at h
  | ok value =>
  rw [he] at h
  simp only at h
  by_cases hsc : r.2.current_token.type = T_SEMICOLON
  swap
  · simp [hsc, raise] at h
  simp only [hsc, not_true_eq_false, if_false] at h
  have hle4 := (advance_length _ s1 h).1
  simp only at hle4
  omega

theorem res_bind_not_timeout {α β : Type} (r : Res α) (f : α → Res β)
    (hr : r ≠ .timeout) (hf : ∀ a, r = .ok a → f a ≠ .timeout) : r.bind f ≠ .timeout := by
  cases r with
  | ok a => exact hf a rfl
  | fail e v o => simp [Res.bind]
  | timeout => exact absurd rfl hr

theorem execute_print_not_timeout (s : State) : execute_print s ≠ .timeout := by
  unfold execute_print
  refine res_bind_not_timeout _ _ (advance_not_timeout s) (fun s1 _ => ?_)
  split
  · simp [raise]
  refine res_bind_not_timeout _ _ (advance_not_timeout s1) (fun s2 _ => ?_)
  refine res_bind_not_timeout _ _ ?_ (fun s3 _ => ?_)
  · split
    · simp
    · refine res_bind_not_timeout _ _ (parse_expression_not_timeout s2) (fun r _ => ?_)
      refine res_bind_not_timeout _ _ (evaluate_not_timeout _ _) (fun v _ => ?_)
      simp
  · split
    · simp [raise]
    refine res_bind_not_timeout _ _ (advance_not_timeout s3) (fun s4 _ => ?_)
    split
    · simp [raise]
    · exact advance_not_timeout s4

theorem execute_set_not_timeout (s : State) : execute_set s ≠ .timeout := by
  unfold execute_set
  refine res_bind_not_timeout _ _ (advance_not_timeout s) (fun s1 _ => ?_)
  split
  · simp [raise]
  refine res_bind_not_timeout _ _ (advance_not_timeout s1) (fun s2 _ => ?_)
  split
  · simp [raise]
  refine res_bind_not_timeout _ _ (advance_not_timeout s2) (fun s3 _ => ?_)
  refine res_bind_not_timeout _ _ (parse_expression_not_timeout s3) (fun r _ => ?_)
  refine res_bind_not_timeout _ _ (evaluate_not_timeout _ _) (fun v _ => ?_)
  simp only
  split
  · simp [raise]
  · exact advance_not_timeout _

theorem execute_not_timeout (fuel : Nat) (s : State)
    (hf : s.input.length + 2 ≤ fuel ∨ (s.current_token.type = T_EOF ∧ 1 ≤ fuel)) :
    execute fuel s ≠ .timeout := by
  induction fuel generalizing s with
  | zero => omega
  | succ fuel ih =>
    unfold execute
    by_cases heof : s.current_token.type = T_EOF
    · simp [heof]
    · have hlen : s.input.length + 2 ≤ fuel + 1 := by
        rcases hf with hf | hf
        · exact hf
        · exact absurd hf.1 heof
      simp only [heof, if_false]
      split
      · refine res_bind_not_timeout _ _ (execute_print_not_timeout s) (fun s1 h1 => ?_)
        have := execute_print_progress s s1 h1
        exact ih s1 (Or.inl (by omega))
      · refine res_bind_not_timeout _ _ (execute_set_not_timeout s) (fun s1 h1 => ?_)
        have := execute_set_progress s s1 h1
        exact ih s1 (Or.inl (by omega))
      · obtain ⟨e, he, _⟩ := execute_loop_fails s
        rw [he]; simp [Res.bind]
      · obtain ⟨e, he, _⟩ := execute_if_fails s
        rw [he]; simp [Res.bind]
      · simp [raise]

theorem execute_stable (fuel : Nat) (s : State) (h : execute fuel s ≠ .timeout)
    (k : Nat) (hk : fuel ≤ k) : execute k s = execute fuel s := by
  induction fuel generalizing s k with
  | zero => simp [execute] at h
  | succ fuel ih =>
    obtain ⟨k2, rfl⟩ : ∃ j, k = j + 1 := ⟨k - 1, by omega⟩
    have hk2 : fuel ≤ k2 := by omega
    unfold execute at h ⊢
    by_cases heof : s.current_token.type = T_EOF
    · simp [heof]
    · simp only [heof, if_false] at h ⊢
      split at h
      · cases hp : execute_print s with
        | ok s1 =>
          rw [hp] at h
          simp only [Res.bind] at h ⊢
          exact ih s1 h k2 hk2
        | fail e v o => rfl
        | timeout => rfl
      · cases hp : execute_set s with
        | ok s1 =>
          rw [hp] at h
          simp only [Res.bind] at h ⊢
          exact ih s1 h k2 hk2
        | fail e v o => rfl
        | timeout => rfl
      · obtain ⟨e, he, _⟩ := execute_loop_fails s
        rw [he, he]; rfl
      · obtain ⟨e, he, _⟩ := execute_if_fails s
        rw [he, he]; rfl
      · rfl

theorem execute_total_of_fuel (fuel : Nat) (s : State) (hf : s.input.length + 2 ≤ fuel) :
    execute fuel s = execute_total s :=
  execute_stable _ s (execute_not_timeout _ s (Or.inl (Nat.le_refl _))) fuel hf

theorem trim_trailing_length (text : List Nat) :
    (trim_trailing text).length ≤ text.length := by
  unfold trim_trailing
  rw [List.length_reverse]
  have := (List.dropWhile_sublist isspace (l := text.reverse)).length_le
  simpa using this

theorem interpret_not_timeout (fuel : Nat) (text : List Nat) (hf : text.length + 2 ≤ fuel) :
    interpret fuel text ≠ .timeout := by
  unfold interpret
  refine res_bind_not_timeout _ _ (advance_not_timeout _) (fun s1 h1 => ?_)
  have := (advance_length _ s1 h1).1
  simp only [initial_state] at this
  exact execute_not_timeout fuel s1 (Or.inl (by omega))

theorem interpret_stable (fuel : Nat) (text : List Nat) (h : interpret fuel text ≠ .timeout)
    (k : Nat) (hk : fuel ≤ k) : interpret k text = interpret fuel text := by
  unfold interpret at h ⊢
  cases ha : advance (initial_state text) with
  | ok s1 =>
    rw [ha] at h
    simp only [Res.bind] at h ⊢
    exact execute_stable fuel s1 h k hk
  | fail e v o => rfl
  | timeout => rfl

theorem execute_ok_at_eof (fuel : Nat) (s sf : State) (h : execute fuel s = .ok sf) :
    sf.current_token.type = T_EOF := by
  induction fuel generalizing s with
  | zero => simp [execute] at h
  | succ fuel ih =>
    unfold execute at h
    by_cases heof : s.current_token.type = T_EOF
    · simp only [heof, if_true, Res.ok.injEq] at h
      subst h; exact heof
    · simp only [heof, if_false] at h
      split at h
      · cases hp : execute_print s with
        | ok s1 => rw [hp] at h; exact ih s1 h
        | fail e v o => rw [hp] at h; simp [Res.bind] at h
        | timeout => rw [hp] at h; simp [Res.bind] at h
      · cases hp : execute_set s with
        | ok s1 => rw [hp] at h; exact ih s1 h
        | fail e v o => rw [hp] at h; simp [Res.bind] at h
        | timeout => rw [hp] at h; simp [Res.bind] at h
      · cases hp : execute_loop (execute fuel) fuel s with
        | ok s1 => rw [hp] at h; exact ih s1 h
        | fail e v o => rw [hp] at h; simp [Res.bind] at h
        | timeout => rw [hp] at h; simp [Res.bind] at h
      · cases hp : execute_if (execute fuel) fuel s with
        | ok s1 => rw [hp] at h; exact ih s1 h
        | fail e v o => rw [hp] at h; simp [Res.bind] at h
        | timeout => rw [hp] at h; simp [Res.bind] at h
      · simp [raise] at h

theorem main_ok_at_eof (fuel : Nat) (text : List Nat) (sf : State)
    (h : main fuel text = .ok sf) : sf.current_token.type = T_EOF := by
  unfold main at h
  split at h
  · cases h
  · unfold interpret at h
    cases ha : advance (initial_state (trim_trailing text)) with
    | ok s1 => rw [ha] at h; exact execute_ok_at_eof fuel s1 sf h
    | fail e v o => rw [ha] at h; simp [Res.bind] at h
    | timeout => rw [ha] at h; simp [Res.bind] at h

set_option maxRecDepth 8192 in
theorem main_trap_after_output (fuel : Nat) :
    main (fuel + 3) trap_after_output
      = .fail .ArithmeticTrap (set_variable empty_store (bytes "m") (-1)) (bytes "7\n") := rfl

theorem skip_space_leading (ws l : List Nat) (hws : ∀ c ∈ ws, isspace c = true) :
    skip_space (ws ++ l) = skip_space l := by
  induction ws with
  | nil => rfl
  | cons c ws ih =>
    have hc := hws c (List.mem_cons_self _ _)
    show skip_space (c :: (ws ++ l)) = _
    simp only [skip_space, hc, if_true]
    exact ih (fun d hd => hws d (List.mem_cons_of_mem _ hd))

theorem get_next_token_leading (ws l : List Nat) (hws : ∀ c ∈ ws, isspace c = true) :
    get_next_token (ws ++ l) = get_next_token l := by
  unfold get_next_token
  rw [skip_space_leading ws l hws]

theorem get_next_token_equals (rest : List Nat) (h : ¬ starts_with 61 rest) :
    get_next_token (61 :: rest) = .ok (op_tok T_EQUALS, rest) := by
  cases rest with
  | nil => rfl
  | cons d tl =>
    have hd : d ≠ 61 := by
      intro hd; apply h; simp [starts_with, hd]
    have := single_char_equals d tl hd
    simp [get_next_token, skip_space, isspace, isdigit, isalpha, this, op_tok]

/-- C13: behind any white space, each of `( ) { } ; + - * / % < >` and `==` is lexed
as its own token with the cursor just past it, and `=` likewise when no second `=`
follows; but `&&`, `||` and `!` are not lexed as the and, or and not tokens: the
lexer fails on them with "Unknown character". -/
theorem C13_spellings (ws rest : List Nat) (hws : ∀ c ∈ ws, isspace c = true) :
    (∀ sp t, (sp, t) ∈ lexed_spellings → (t = T_EQUALS → ¬ starts_with 61 rest) →
      get_next_token (ws ++ (sp ++ rest)) = .ok (op_tok t, rest)) ∧
    get_next_token (ws ++ (bytes "==" ++ rest)) = .ok (op_tok T_EQUAL_COMPARE, rest) ∧
    get_next_token (ws ++ (bytes "&&" ++ rest)) = .error (.UnknownCharacter 38) ∧
    get_next_token (ws ++ (bytes "||" ++ rest)) = .error (.UnknownCharacter 124) ∧
    get_next_token (ws ++ (bytes "!" ++ rest)) = .error (.UnknownCharacter 33) := by
  refine ⟨?_, ?_, ?_, ?_, ?_⟩
  · intro sp t hmem heq
    rw [get_next_token_leading ws _ hws]
    simp only [lexed_spellings, List.mem_cons, Prod.mk.injEq, List.mem_singleton,
      List.not_mem_nil, or_false] at hmem
    rcases hmem with h | h | h | h | h | h | h | h | h | h | h | h | h | h <;>
      obtain ⟨rfl, rfl⟩ := h
    all_goals first
      | rfl
      | exact get_next_token_equals rest (heq rfl)
  all_goals (rw [get_next_token_leading ws _ hws]; rfl)

/-- C13 witness: behind a blank, `==` followed by `1` is one equals-equals token, `<`
is the less token, and `!` is refused. -/
theorem C13_spellings_witness :
    get_next_token (bytes " " ++ (bytes "==" ++ bytes "1"))
      = .ok (op_tok T_EQUAL_COMPARE, bytes "1") ∧
    get_next_token (bytes " " ++ (bytes "<" ++ bytes "1")) = .ok (op_tok T_LESS, bytes "1") ∧
    get_next_token (bytes " " ++ (bytes "!" ++ bytes "1")) = .error (.UnknownCharacter 33) :=
  ⟨(C13_spellings (bytes " ") (bytes "1") (by decide)).2.1,
   (C13_spellings (bytes " ") (bytes "1") (by decide)).1 (bytes "<") T_LESS (by decide)
     (by decide),
   (C13_spellings (bytes " ") (bytes "1") (by decide)).2.2.2.2⟩

/-! ## Keywords and identifiers -/

theorem classify_word_cases (run : List Nat) :
    ((classify_word run).type = T_PRINT ↔ run = bytes "yap") ∧
    ((classify_word run).type = T_SET ↔ run = bytes "sigma") ∧
    ((classify_word run).type = T_LOOP ↔ run = bytes "fr_fr") ∧
    ((classify_word run).type = T_IF ↔ run = bytes "based") := by
  unfold classify_word
  by_cases h1 : run = bytes "yap"
  · subst h1; decide
  by_cases h2 : run = bytes "sigma"
  · subst h2; decide
  by_cases h3 : run = bytes "fr_fr"
  · subst h3; decide
  by_cases h4 : run = bytes "based"
  · subst h4; decide
  simp [h1, h2, h3, h4]

/-- C14 (as amended): behind any white space, a maximal run of letters, digits and `_`
that begins with a letter and is shorter than the token buffer is consumed exactly, and
the token is the print, assign, loop or conditional keyword if and only if the run is
exactly `yap`, `sigma`, `fr_fr` or `based`; otherwise it is the identifier token whose
name is the run.  A run that begins with `_` is not a word: whatever follows the `_`,
the lexer fails on it with the unknown-character error. -/
theorem C14_words (ws rest : List Nat) (hws : ∀ c ∈ ws, isspace c = true) :
    (∀ run : List Nat, is_identifier run → run.length < MAX_TOKEN_SIZE - 1 →
      (∀ c r, rest = c :: r → is_ident_byte c = false) →
      get_next_token (ws ++ (run ++ rest)) = .ok (classify_word run, rest) ∧
      ((classify_word run).type = T_PRINT ↔ run = bytes "yap") ∧
      ((classify_word run).type = T_SET ↔ run = bytes "sigma") ∧
      ((classify_word run).type = T_LOOP ↔ run = bytes "fr_fr") ∧
      ((classify_word run).type = T_IF ↔ run = bytes "based") ∧
      (¬ is_keyword run → classify_word run = id_tok run)) ∧
    get_next_token (ws ++ (95 :: rest)) = .error (.UnknownCharacter 95) := by
  refine ⟨fun run hrun hlen hmax => ?_, ?_⟩
  · obtain ⟨h1, h2, h3, h4⟩ := classify_word_cases run
    refine ⟨?_, h1, h2, h3, h4, classify_word_identifier run⟩
    rw [get_next_token_leading ws _ hws]
    exact get_next_token_word run rest hrun hmax hlen
  · rw [get_next_token_leading ws _ hws]
    rfl

/-- C14 witness: `yapper` and `Yap` are identifiers, `yap` is the print keyword, and
`_yap` is refused at its `_`. -/
theorem C14_words_witness :
    get_next_token (bytes "  " ++ (bytes "yapper" ++ bytes "(1);"))
      = .ok (id_tok (bytes "yapper"), bytes "(1);") ∧
    get_next_token (bytes "  " ++ (bytes "Yap" ++ bytes "(1);"))
      = .ok (id_tok (bytes "Yap"), bytes "(1);") ∧
    get_next_token (bytes "  " ++ (bytes "yap" ++ bytes "(1);"))
      = .ok (op_tok T_PRINT, bytes "(1);") ∧
    get_next_token (bytes "  " ++ (95 :: bytes "yap(1);")) = .error (.UnknownCharacter 95) :=
  ⟨((C14_words (bytes "  ") (bytes "(1);") (by decide)).1 (bytes "yapper") (by decide)
      (by decide) (by intro c r h; cases h; decide)).1,
   ((C14_words (bytes "  ") (bytes "(1);") (by decide)).1 (bytes "Yap") (by decide)
      (by decide) (by intro c r h; cases h; decide)).1,
   ((C14_words (bytes "  ") (bytes "(1);") (by decide)).1 (bytes "yap") (by decide)
      (by decide) (by intro c r h; cases h; decide)).1,
   (C14_words (bytes "  ") (bytes "yap(1);") (by decide)).2⟩

/-- C14 counterexample: `_x` is a maximal run of letters, digits and `_` that begins
with `_`, yet the lexer does not return an identifier: it fails with "Unknown
character" for `_`. -/
theorem C14_counterexample_underscore_led :
    (∀ d ∈ bytes "_x", is_ident_byte d = true) ∧
    get_next_token (bytes "_x") = .error (.UnknownCharacter 95) ∧
    get_next_token (bytes "_x") ≠ .ok (id_tok (bytes "_x"), []) :=
  ⟨by decide, rfl, by intro h; cases h⟩

/-! ## String literals -/

theorem scan_string_too_long (r rest buf : List Nat) (hq : ∀ c ∈ r, c ≠ 34)
    (hbuf : buf.length < MAX_TOKEN_SIZE - 1)
    (hlen : MAX_TOKEN_SIZE - 1 ≤ buf.length + r.length) :
    scan_string (r ++ rest) buf = .error .StringTooLong := by
  induction r generalizing buf with
  | nil => simp only [List.length_nil] at hlen; omega
  | cons d r ih =>
    have hd := hq d (List.mem_cons_self _ _)
    simp only [List.length_cons] at hlen
    show scan_string (d :: (r ++ rest)) buf = _
    by_cases hfull : buf.length + 1 ≥ MAX_TOKEN_SIZE - 1
    · simp [scan_string, hd, hfull]
    · simp only [scan_string, hd, if_false, hfull]
      exact ih (buf ++ [d]) (fun y hy => hq y (List.mem_cons_of_mem _ hy))
        (by simp only [List.length_append, List.length_singleton]; omega)
        (by simp only [List.length_append, List.length_singleton]; omega)

theorem scan_string_unterminated (r buf : List Nat) (hq : ∀ c ∈ r, c ≠ 34)
    (hlen : buf.length + r.length < MAX_TOKEN_SIZE - 1) :
    scan_string r buf = .error .UnterminatedString := by
  induction r generalizing buf with
  | nil => rfl
  | cons d r ih =>
    have hd := hq d (List.mem_cons_self _ _)
    simp only [List.length_cons] at hlen
    have hfull : ¬ (buf.length + 1 ≥ MAX_TOKEN_SIZE - 1) := by omega
    simp only [scan_string, hd, if_false, hfull]
    exact ih (buf ++ [d]) (fun y hy => hq y (List.mem_cons_of_mem _ hy))
      (by simp only [List.length_append, List.length_singleton]; omega)

theorem get_next_token_quote (l : List Nat) :
    get_next_token (34 :: l)
      = (scan_string l []).map (fun r => ({ type := T_STRING, string := strdup r.1 }, r.2)) := by
  simp [get_next_token, skip_space, isspace, isdigit]

theorem strdup_of_no_nul (r : List Nat) (h : ∀ c ∈ r, c ≠ 0) : strdup r = r := by
  unfold strdup
  rw [List.takeWhile_eq_self_iff]
  intro c hc
  simpa using h c hc

/-- C15 (as amended): behind any white space, a `"`, a run `r` of non-`"` bytes and a
closing `"` are lexed as a string literal exactly when `r` has at most 254 bytes; the
value is `r` up to its first NUL byte (so exactly `r` when `r` has none) and the cursor
is just past the closing quote; the lexer fails with "String too long" exactly when
`r` has 255 bytes or more; and with `r` of at most 254 bytes and no closing quote it
fails with "Unterminated string". -/
theorem C15_string_literals (ws r rest : List Nat) (hws : ∀ c ∈ ws, isspace c = true)
    (hq : ∀ c ∈ r, c ≠ 34) :
    (r.length ≤ 254 →
      get_next_token (ws ++ (34 :: (r ++ 34 :: rest)))
        = .ok ({ type := T_STRING, string := strdup r }, rest)) ∧
    ((∀ c ∈ r, c ≠ 0) → strdup r = r) ∧
    (get_next_token (ws ++ (34 :: (r ++ 34 :: rest))) = .error .StringTooLong
      ↔ 255 ≤ r.length) ∧
    (r.length ≤ 254 → get_next_token (ws ++ (34 :: r)) = .error .UnterminatedString) ∧
    (255 ≤ r.length → get_next_token (ws ++ (34 :: r)) = .error .StringTooLong) := by
  have hok : r.length ≤ 254 →
      get_next_token (ws ++ (34 :: (r ++ 34 :: rest)))
        = .ok ({ type := T_STRING, string := strdup r }, rest) := by
    intro hlen
    rw [get_next_token_leading ws _ hws]
    exact get_next_token_string r rest hq (by simp only [MAX_TOKEN_SIZE]; omega)
  have hlong : ∀ tail, 255 ≤ r.length →
      get_next_token (ws ++ (34 :: (r ++ tail))) = .error .StringTooLong := by
    intro tail hlen
    rw [get_next_token_leading ws _ hws, get_next_token_quote,
      scan_string_too_long r tail [] hq (by decide) (by simpa [MAX_TOKEN_SIZE] using hlen)]
    rfl
  refine ⟨hok, strdup_of_no_nul r, ⟨?_, hlong _⟩, ?_, ?_⟩
  · intro herr
    by_contra hlt
    rw [hok (by omega)] at herr
    cases herr
  · intro hlen
    rw [get_next_token_leading ws _ hws, get_next_token_quote,
      scan_string_unterminated r [] hq (by simp only [MAX_TOKEN_SIZE, List.length_nil]; omega)]
    rfl
  · intro hlen
    have := hlong [] hlen
    simpa using this

/-- C15 witness: `"hi"` behind a blank is the string literal `hi` with the cursor past
the closing quote, and `"hi` without a closing quote is an unterminated string. -/
theorem C15_string_literals_witness :
    get_next_token (bytes " " ++ (34 :: (bytes "hi" ++ 34 :: bytes ");")))
      = .ok ({ type := T_STRING, string := bytes "hi" }, bytes ");") ∧
    get_next_token (bytes " " ++ (34 :: bytes "hi")) = .error .UnterminatedString :=
  ⟨(C15_string_literals (bytes " ") (bytes "hi") (bytes ");") (by decide) (by decide)).1
      (by decide),
   (C15_string_literals (bytes " ") (bytes "hi") (bytes ");") (by decide)
      (by decide)).2.2.2.1 (by decide)⟩

/-- C15 counterexample: a run of exactly 255 bytes `a` between quotes has at most 255
bytes, yet the lexer fails with "String too long"; and the 3-byte run `a`, NUL, `b`
is lexed to a string literal whose value is `a`, not the run. -/
theorem C15_counterexample_bound_and_nul :
    ((List.replicate 255 97).length ≤ 255 ∧
      get_next_token (34 :: (List.replicate 255 97 ++ [34])) = .error .StringTooLong) ∧
    (get_next_token (34 :: ([97, 0, 98] ++ [34]))
        = .ok ({ type := T_STRING, string := [97] }, []) ∧
      ([97] : List Nat) ≠ [97, 0, 98]) := by
  refine ⟨⟨by rw [List.length_replicate], ?_⟩, rfl, by decide⟩
  rw [get_next_token_quote, scan_string_too_long (List.replicate 255 97) [34] []
    (fun c hc => by rw [List.mem_replicate] at hc; omega) (by decide)
    (by rw [List.length_replicate]; decide)]
  rfl

/-! ## Runs on a text continued by an unknown character: all outcomes -/

theorem scan_string_append_error (l more buf : List Nat) (e : Err)
    (h : scan_string l buf = .error e) (he : e ≠ .UnterminatedString) :
    scan_string (l ++ more) buf = .error e := by
  induction l generalizing buf with
  | nil =>
    simp only [scan_string, Except.error.injEq] at h
    exact absurd h.symm he
  | cons d l ih =>
    show scan_string (d :: (l ++ more)) buf = _
    unfold scan_string at h ⊢
    by_cases hq : d = 34
    · simp [hq] at h
    · simp only [hq, if_false] at h ⊢
      by_cases hlen : buf.length + 1 ≥ MAX_TOKEN_SIZE - 1
      · simp only [hlen, if_true] at h ⊢
        exact h
      · simp only [hlen, if_false] at h ⊢
        exact ih _ h

theorem scan_ident_append_error (l more buf : List Nat) (e : Err)
    (h : scan_ident l buf = .error e) : scan_ident (l ++ more) buf = .error e := by
  induction l generalizing buf with
  | nil => simp [scan_ident] at h
  | cons d l ih =>
    show scan_ident (d :: (l ++ more)) buf = _
    unfold scan_ident at h ⊢
    by_cases hd : (isalnum d || decide (d = 95)) = true
    · simp only [hd, if_true] at h ⊢
      by_cases hlen : buf.length + 1 ≥ MAX_TOKEN_SIZE - 1
      · simp only [hlen, if_true] at h ⊢
        exact h
      · simp only [hlen, if_false] at h ⊢
        exact ih _ h
    · simp only [hd] at h
      simp at h

theorem single_char_append_error (c0 : Nat) (rest more : List Nat) (e : Err)
    (h : single_char c0 rest = .error e) : single_char c0 (rest ++ more) = .error e := by
  by_cases h61 : c0 = 61
  · subst h61
    exfalso
    cases rest with
    | nil => simp [single_char] at h
    | cons d rest =>
      by_cases hd : d = 61
      · subst hd; simp [single_char] at h
      · rw [single_char_equals d rest hd] at h; cases h
  · rw [single_char_rest c0 _ h61] at h ⊢
    cases hs : single_char c0 [] with
    | error e2 =>
      rw [hs] at h
      simpa [Except.map] using h
    | ok p => rw [hs] at h; simp [Except.map] at h

theorem get_next_token_append_error (a q : List Nat) (c : Nat) (hc : isspace c = false)
    (e : Err) (h : get_next_token a = .error e) (he : e ≠ .UnterminatedString) :
    get_next_token (a ++ c :: q) = .error e := by
  unfold get_next_token at h ⊢
  rw [skip_space_append a q c hc]
  cases hs : skip_space a with
  | nil => rw [hs] at h; cases h
  | cons c0 rest0 =>
    rw [hs] at h
    simp only [List.cons_append] at h ⊢
    by_cases h0 : isdigit c0 = true
    · simp [h0] at h
    · simp only [h0, Bool.false_eq_true, if_false] at h ⊢
      by_cases h1 : c0 = 34
      · simp only [h1, if_true] at h ⊢
        cases hstr : scan_string rest0 [] with
        | ok p => rw [hstr] at h; simp [Except.map] at h
        | error e2 =>
          rw [hstr] at h
          simp only [Except.map, Except.error.injEq] at h
          subst h
          rw [scan_string_append_error rest0 (c :: q) [] e2 hstr he]
          rfl
      · simp only [h1, if_false] at h ⊢
        by_cases h2 : isalpha c0 = true
        · simp only [h2, if_true] at h ⊢
          cases hidn : scan_ident (c0 :: rest0) [] with
          | ok p => rw [hidn] at h; simp [Except.map] at h
          | error e2 =>
            rw [hidn] at h
            simp only [Except.map, Except.error.injEq] at h
            subst h
            have happ := scan_ident_append_error (c0 :: rest0) (c :: q) [] e2 hidn
            simp only [List.cons_append] at happ
            rw [happ]
            rfl
        · simp only [h2, Bool.false_eq_true, if_false] at h ⊢
          exact single_char_append_error c0 rest0 (c :: q) e h

theorem advance_extend_fail (q : List Nat) (c : Nat) (hc : is_unknown c) (s : State)
    (e : Err) (v : Store) (o : List Nat) (h : advance s = .fail e v o)
    (he : e ≠ .UnterminatedString) :
    advance (extend_input (c :: q) s) = .fail e v o := by
  unfold advance at h ⊢
  cases hg : get_next_token s.input with
  | ok p => rw [hg] at h; cases h
  | error e2 =>
    rw [hg] at h
    simp only [raise, Res.fail.injEq] at h
    obtain ⟨rfl, rfl, rfl⟩ := h
    have := get_next_token_append_error s.input q c hc.1 e2 hg he
    simp [extend_input, this, raise]

theorem advance_extends (q : List Nat) (c : Nat) (hc : is_unknown c) (s : State) :
    extends_run id (extend_input (c :: q)) c (advance s) (advance (extend_input (c :: q) s)) := by
  cases h : advance s with
  | ok s1 =>
    have hfr := advance_frame s s1 h
    rcases advance_extend q c hc s s1 h with ⟨h1, h2⟩ | ⟨h1, h2⟩
    · exact Or.inl ⟨h1, h2⟩
    · refine Or.inr ⟨h1, ?_⟩
      rw [h2]
      show _ = Res.fail _ s1.vars s1.output
      rw [hfr.1, hfr.2]
  | fail e v o =>
    by_cases he : e = .UnterminatedString
    · exact Or.inl he
    · exact Or.inr (Or.inl (advance_extend_fail q c hc s e v o h he))
  | timeout => exact absurd h (advance_not_timeout s)

theorem res_bind_assoc {α β γ : Type} (r : Res α) (f : α → Res β) (g : β → Res γ) :
    (r.bind f).bind g = r.bind (fun x => (f x).bind g) := by
  cases r <;> rfl

theorem extends_run_bind {α β : Type} (st : α → State) (ex : α → α) (st2 : β → State)
    (ex2 : β → β) (c : Nat) (L1 R1 : Res α) (k kR : α → Res β)
    (h1 : extends_run st ex c L1 R1)
    (ha : ∀ x, L1 = .ok x → (st x).current_token.type ≠ T_EOF →
      extends_run st2 ex2 c (k x) (kR (ex x)))
    (hb : ∀ x, L1 = .ok x → (st x).current_token.type = T_EOF →
      extends_run st2 ex2 c (k x) (.fail (.UnknownCharacter c) (st x).vars (st x).output)) :
    extends_run st2 ex2 c (L1.bind k) (R1.bind kR) := by
  cases L1 with
  | ok x =>
    rcases h1 with ⟨hne, rfl⟩ | ⟨heof, rfl⟩
    · exact ha x rfl hne
    · exact hb x rfl heof
  | fail e v o =>
    rcases h1 with h | rfl | ⟨v2, o2, rfl, h⟩
    · exact Or.inl h
    · exact Or.inr (Or.inl rfl)
    · exact Or.inr (Or.inr ⟨v2, o2, rfl, h⟩)
  | timeout =>
    intro x hx
    cases R1 with
    | ok y => exact h1 y rfl
    | fail e v o => cases hx
    | timeout => cases hx

theorem extends_run_same {α : Type} (st : α → State) (ex : α → α) (c : Nat) (e : Err)
    (v : Store) (o : List Nat) : extends_run st ex c (.fail e v o) (.fail e v o) :=
  Or.inr (Or.inl rfl)

theorem extends_run_cut {α : Type} (st : α → State) (ex : α → α) (c : Nat) (e : Err)
    (v v2 : Store) (o : List Nat) :
    extends_run st ex c (.fail e v o) (.fail (.UnknownCharacter c) v2 o) :=
  Or.inr (Or.inr ⟨v2, o, rfl, Or.inl rfl⟩)

theorem parse_expression_loop_extend_fail (q : List Nat) (c : Nat) (hc : is_unknown c)
    (fuel : Nat) (s : State) (expr : List Token) (e : Err) (v : Store) (o : List Nat)
    (hs : s.current_token.type ≠ T_EOF) (he : e ≠ .UnterminatedString)
    (h : parse_expression_loop fuel s expr = .fail e v o) (fuel2 : Nat) (hf : fuel ≤ fuel2) :
    parse_expression_loop fuel2 (extend_input (c :: q) s) expr = .fail e v o := by
  induction fuel generalizing s expr fuel2 with
  | zero => simp [parse_expression_loop] at h
  | succ fuel ih =>
    obtain ⟨fuel3, rfl⟩ : ∃ k, fuel2 = k + 1 := ⟨fuel2 - 1, by omega⟩
    have hf3 : fuel ≤ fuel3 := by omega
    unfold parse_expression_loop at h ⊢
    rw [extend_input_token]
    by_cases ht : is_terminator s.current_token.type = true
    · simp [ht] at h
    · simp only [ht, Bool.false_eq_true, if_false] at h ⊢
      cases ha : advance s with
      | timeout => rw [ha] at h; simp [Res.bind] at h
      | fail e2 v2 o2 =>
        rw [ha] at h
        simp only [Res.bind, Res.fail.injEq] at h
        obtain ⟨rfl, rfl, rfl⟩ := h
        rw [advance_extend_fail q c hc s _ _ _ ha he]
        rfl
      | ok s1 =>
        rw [ha] at h
        simp only [Res.bind] at h
        rcases advance_extend q c hc s s1 ha with ⟨hne, hr⟩ | ⟨heof, hr⟩
        · rw [hr]
          simp only [Res.bind]
          exact ih s1 _ hne h fuel3 hf3
        · exfalso
          cases fuel with
          | zero => simp [parse_expression_loop] at h
          | succ fuel =>
            have ht1 : is_terminator s1.current_token.type = true := by
              rw [heof]; rfl
            simp [parse_expression_loop, ht1] at h

theorem parse_expression_extends (q : List Nat) (c : Nat) (hc : is_unknown c) (s : State)
    (hs : s.current_token.type ≠ T_EOF) :
    extends_run Prod.snd (extend_parsed (c :: q)) c (parse_expression s)
      (parse_expression (extend_input (c :: q) s)) := by
  cases h : parse_expression s with
  | ok r =>
    have hfr := parse_expression_frame s r h
    rcases parse_expression_extend q c hc s r hs h with ⟨h1, h2⟩ | ⟨h1, h2⟩
    · exact Or.inl ⟨h1, h2⟩
    · refine Or.inr ⟨h1, ?_⟩
      rw [h2]
      show _ = Res.fail _ r.2.vars r.2.output
      rw [hfr.1, hfr.2]
  | fail e v o =>
    by_cases he : e = .UnterminatedString
    · exact Or.inl he
    · refine Or.inr (Or.inl ?_)
      unfold parse_expression at h ⊢
      exact parse_expression_loop_extend_fail q c hc _ s [] e v o hs he h _
        (by simp [extend_input])
  | timeout => exact absurd h (parse_expression_not_timeout s)

theorem execute_print_extends (q : List Nat) (c : Nat) (hc : is_unknown c) (s : State) :
    extends_run id (extend_input (c :: q)) c (execute_print s)
      (execute_print (extend_input (c :: q) s)) := by
  unfold execute_print
  refine extends_run_bind id _ id _ c _ _ _ _ (advance_extends q c hc s) ?_ ?_
  · -- the token after the keyword is not the end of the text
    intro s1 _ hne1
    dsimp only
    rw [extend_input_token]
    by_cases hlp : s1.current_token.type = T_LPAREN
    swap
    · rw [if_pos hlp, if_pos hlp]
      exact extends_run_same _ _ c _ _ _
    rw [if_neg (not_not.mpr hlp), if_neg (not_not.mpr hlp)]
    refine extends_run_bind id _ id _ c _ _ _ _ (advance_extends q c hc s1) ?_ ?_
    · intro s2 _ hne2
      dsimp only
      rw [extend_input_token]
      by_cases hstr : s2.current_token.type = T_STRING
      · rw [if_pos hstr, if_pos hstr]
        have hrp : ¬ (T_STRING = T_RPAREN) := by decide
        simp only [Res.bind, extend_input_token, hstr, ne_eq, hrp, not_false_eq_true, if_true]
        exact extends_run_same _ _ c _ _ _
      rw [if_neg hstr, if_neg hstr, res_bind_assoc, res_bind_assoc]
      refine extends_run_bind Prod.snd _ id _ c _ _ _ _
        (parse_expression_extends q c hc s2 hne2) ?_ ?_
      · intro r _ hner
        dsimp only [extend_parsed]
        have hev : evaluate (extend_input (c :: q) r.2) r.1 = evaluate r.2 r.1 := rfl
        rw [hev]
        cases he : evaluate r.2 r.1 with
        | timeout => intro x hx; cases hx
        | fail e v o => exact extends_run_same _ _ c _ _ _
        | ok result =>
          simp only [Res.bind]
          by_cases hrp : r.2.current_token.type = T_RPAREN
          swap
          · rw [if_pos hrp, if_pos (by rw [extend_input_token]; exact hrp)]
            exact extends_run_same _ _ c _ _ _
          rw [if_neg (not_not.mpr hrp),
            if_neg (by rw [extend_input_token]; exact not_not.mpr hrp)]
          have hadv := advance_extends q c hc
            { r.2 with output := r.2.output ++ print_int result ++ [10] }
          refine extends_run_bind id _ id _ c _ _ _ _ hadv ?_ ?_
          · intro s4 _ hne4
            dsimp only
            rw [extend_input_token]
            by_cases hsc : s4.current_token.type = T_SEMICOLON
            swap
            · rw [if_pos hsc, if_pos hsc]
              exact extends_run_same _ _ c _ _ _
            rw [if_neg (not_not.mpr hsc), if_neg (not_not.mpr hsc)]
            exact advance_extends q c hc s4
          · intro s4 _ heof4
            dsimp only
            have hsc : s4.current_token.type ≠ T_SEMICOLON := by
              have h4 : (id s4).current_token.type = T_EOF := heof4
              simp only [id] at h4
              rw [h4]; decide
            rw [if_pos hsc]
            exact extends_run_cut _ _ c _ _ _ _
      · intro r _ heofr
        dsimp only
        have heof : r.2.current_token.type = T_EOF := heofr
        cases he : evaluate r.2 r.1 with
        | timeout => intro x hx; cases hx
        | fail e v o =>
          obtain ⟨-, rfl, rfl⟩ := evaluate_fail r.2 r.1 e v o he
          exact extends_run_cut _ _ c _ _ _ _
        | ok result =>
          have hrp : ¬ (T_EOF = T_RPAREN) := by decide
          simp only [Res.bind, heof, ne_eq, hrp, not_false_eq_true, if_true]
          exact Or.inr (Or.inr ⟨_, _, rfl, Or.inr ⟨result, rfl⟩⟩)
    · intro s2 _ heof2
      dsimp only
      have heof : s2.current_token.type = T_EOF := heof2
      have hpe := parse_expression_at_eof s2 heof
      have hev : evaluate s2 [] = .ok 0 := rfl
      have hL : (if s2.current_token.type = T_STRING then
            Res.ok { s2 with output := s2.output ++ s2.current_token.string ++ [10] }
          else
            (parse_expression s2).bind (fun r =>
            (evaluate r.2 r.1).bind (fun result =>
            Res.ok { r.2 with output := r.2.output ++ print_int result ++ [10] }))).bind
          (fun s3 =>
            if s3.current_token.type ≠ T_RPAREN then raise .PrintExpectedRParen s3 else
            (advance s3).bind (fun s4 =>
            if s4.current_token.type ≠ T_SEMICOLON then raise .PrintExpectedSemicolon s4 else
            advance s4))
          = .fail .PrintExpectedRParen s2.vars (s2.output ++ print_int 0 ++ [10]) := by
        simp [heof, hpe, Res.bind, hev, raise]
      rw [hL]
      exact Or.inr (Or.inr ⟨_, _, rfl, Or.inr ⟨0, rfl⟩⟩)
  · intro s1 _ heof1
    dsimp only
    have heof : s1.current_token.type = T_EOF := heof1
    have hlp : s1.current_token.type ≠ T_LPAREN := by rw [heof]; decide
    rw [if_pos hlp]
    exact extends_run_cut _ _ c _ _ _ _

theorem execute_set_extends (q : List Nat) (c : Nat) (hc : is_unknown c) (s : State) :
    extends_run id (extend_input (c :: q)) c (execute_set s)
      (execute_set (extend_input (c :: q) s)) := by
  unfold execute_set
  refine extends_run_bind id _ id _ c _ _ _ _ (advance_extends q c hc s) ?_ ?_
  · intro s1 _ hne1
    dsimp only
    rw [extend_input_token]
    by_cases hid : s1.current_token.type = T_ID
    swap
    · rw [if_pos hid, if_pos hid]
      exact extends_run_same _ _ c _ _ _
    rw [if_neg (not_not.mpr hid), if_neg (not_not.mpr hid)]
    refine extends_run_bind id _ id _ c _ _ _ _ (advance_extends q c hc s1) ?_ ?_
    · intro s2 _ hne2
      dsimp only
      rw [extend_input_token]
      by_cases heq : s2.current_token.type = T_EQUALS
      swap
      · rw [if_pos heq, if_pos heq]
        exact extends_run_same _ _ c _ _ _
      rw [if_neg (not_not.mpr heq), if_neg (not_not.mpr heq)]
      refine extends_run_bind id _ id _ c _ _ _ _ (advance_extends q c hc s2) ?_ ?_
      · intro s3 _ hne3
        dsimp only
        refine extends_run_bind Prod.snd _ id _ c _ _ _ _
          (parse_expression_extends q c hc s3 hne3) ?_ ?_
        · intro r _ hner
          dsimp only [extend_parsed]
          have hev : evaluate (extend_input (c :: q) r.2) r.1 = evaluate r.2 r.1 := rfl
          rw [hev]
          cases he : evaluate r.2 r.1 with
          | timeout => intro x hx; cases hx
          | fail e v o => exact extends_run_same _ _ c _ _ _
          | ok value =>
            simp only [Res.bind, extend_input_token]
            by_cases hsc : r.2.current_token.type = T_SEMICOLON
            swap
            · rw [if_pos hsc, if_pos hsc]
              exact extends_run_same _ _ c _ _ _
            rw [if_neg (not_not.mpr hsc), if_neg (not_not.mpr hsc)]
            exact advance_extends q c hc
              { r.2 with vars := set_variable r.2.vars s1.current_token.string value }
        · intro r _ heofr
          dsimp only
          have heof : r.2.current_token.type = T_EOF := heofr
          cases he : evaluate r.2 r.1 with
          | timeout => intro x hx; cases hx
          | fail e v o =>
            obtain ⟨-, rfl, rfl⟩ := evaluate_fail r.2 r.1 e v o he
            exact extends_run_cut _ _ c _ _ _ _
          | ok value =>
            have hsc : ¬ (T_EOF = T_SEMICOLON) := by decide
            simp only [Res.bind, heof, ne_eq, hsc, not_false_eq_true, if_true]
            exact Or.inr (Or.inr ⟨_, _, rfl, Or.inl rfl⟩)
      · intro s3 _ heof3
        dsimp only
        have heof : s3.current_token.type = T_EOF := heof3
        have hpe := parse_expression_at_eof s3 heof
        have hev : evaluate s3 [] = .ok 0 := rfl
        have hsc : ¬ (T_EOF = T_SEMICOLON) := by decide
        simp only [hpe, Res.bind, hev, heof, ne_eq, hsc, not_false_eq_true, if_true]
        exact Or.inr (Or.inr ⟨_, _, rfl, Or.inl rfl⟩)
    · intro s2 _ heof2
      dsimp only
      have heof : s2.current_token.type = T_EOF := heof2
      have heq : s2.current_token.type ≠ T_EQUALS := by rw [heof]; decide
      rw [if_pos heq]
      exact extends_run_cut _ _ c _ _ _ _
  · intro s1 _ heof1
    dsimp only
    have heof : s1.current_token.type = T_EOF := heof1
    have hid : s1.current_token.type ≠ T_ID := by rw [heof]; decide
    rw [if_pos hid]
    exact extends_run_cut _ _ c _ _ _ _

theorem execute_loop_extends (q : List Nat) (c : Nat) (hc : is_unknown c) (s : State)
    (exec exec2 : State → Res State) (fuel fuel2 : Nat) :
    extends_run id (extend_input (c :: q)) c (execute_loop exec fuel s)
      (execute_loop exec2 fuel2 (extend_input (c :: q) s)) := by
  unfold execute_loop
  refine extends_run_bind id _ id _ c _ _ _ _ (advance_extends q c hc s) ?_ ?_
  · intro s1 _ hne1
    dsimp only
    rw [extend_input_token]
    by_cases hlp : s1.current_token.type = T_LPAREN
    swap
    · rw [if_pos hlp, if_pos hlp]
      exact extends_run_same _ _ c _ _ _
    rw [if_neg (not_not.mpr hlp), if_neg (not_not.mpr hlp)]
    refine extends_run_bind id _ id _ c _ _ _ _ (advance_extends q c hc s1) ?_ ?_
    · intro s2 _ hne2
      dsimp only
      refine extends_run_bind Prod.snd _ id _ c _ _ _ _
        (parse_expression_extends q c hc s2 hne2) ?_ ?_
      · intro r hr hner
        dsimp only [extend_parsed]
        have hlb := terminator_ne_lbrace _ (parse_expression_terminator s2 r hr)
        rw [extend_input_token, if_pos hlb, if_pos hlb]
        exact extends_run_same _ _ c _ _ _
      · intro r hr heofr
        dsimp only
        have hlb := terminator_ne_lbrace _ (parse_expression_terminator s2 r hr)
        rw [if_pos hlb]
        exact extends_run_cut _ _ c _ _ _ _
    · intro s2 _ heof2
      dsimp only
      have heof : s2.current_token.type = T_EOF := heof2
      have hpe := parse_expression_at_eof s2 heof
      have hlb : ¬ (T_EOF = T_LBRACE) := by decide
      simp only [hpe, Res.bind, heof, ne_eq, hlb, not_false_eq_true, if_true]
      exact extends_run_cut _ _ c _ _ _ _
  · intro s1 _ heof1
    dsimp only
    have heof : s1.current_token.type = T_EOF := heof1
    have hlp : s1.current_token.type ≠ T_LPAREN := by rw [heof]; decide
    rw [if_pos hlp]
    exact extends_run_cut _ _ c _ _ _ _

theorem execute_if_extends (q : List Nat) (c : Nat) (hc : is_unknown c) (s : State)
    (exec exec2 : State → Res State) (fuel fuel2 : Nat) :
    extends_run id (extend_input (c :: q)) c (execute_if exec fuel s)
      (execute_if exec2 fuel2 (extend_input (c :: q) s)) := by
  unfold execute_if
  refine extends_run_bind id _ id _ c _ _ _ _ (advance_extends q c hc s) ?_ ?_
  · intro s1 _ hne1
    dsimp only
    rw [extend_input_token]
    by_cases hlp : s1.current_token.type = T_LPAREN
    swap
    · rw [if_pos hlp, if_pos hlp]
      exact extends_run_same _ _ c _ _ _
    rw [if_neg (not_not.mpr hlp), if_neg (not_not.mpr hlp)]
    refine extends_run_bind id _ id _ c _ _ _ _ (advance_extends q c hc s1) ?_ ?_
    · intro s2 _ hne2
      dsimp only
      refine extends_run_bind Prod.snd _ id _ c _ _ _ _
        (parse_expression_extends q c hc s2 hne2) ?_ ?_
      · intro r hr hner
        dsimp only [extend_parsed]
        have hlb := terminator_ne_lbrace _ (parse_expression_terminator s2 r hr)
        have hev : evaluate (extend_input (c :: q) r.2) r.1 = evaluate r.2 r.1 := rfl
        rw [hev]
        cases he : evaluate r.2 r.1 with
        | timeout => intro x hx; cases hx
        | fail e v o => exact extends_run_same _ _ c _ _ _
        | ok value =>
          simp only [Res.bind]
          rw [extend_input_token, if_pos hlb, if_pos hlb]
          exact extends_run_same _ _ c _ _ _
      · intro r hr heofr
        dsimp only
        have hlb := terminator_ne_lbrace _ (parse_expression_terminator s2 r hr)
        cases he : evaluate r.2 r.1 with
        | timeout => intro x hx; cases hx
        | fail e v o =>
          obtain ⟨-, rfl, rfl⟩ := evaluate_fail r.2 r.1 e v o he
          exact extends_run_cut _ _ c _ _ _ _
        | ok value =>
          simp only [Res.bind]
          rw [if_pos hlb]
          exact extends_run_cut _ _ c _ _ _ _
    · intro s2 _ heof2
      dsimp only
      have heof : s2.current_token.type = T_EOF := heof2
      have hpe := parse_expression_at_eof s2 heof
      have hev : evaluate s2 [] = .ok 0 := rfl
      have hlb : ¬ (T_EOF = T_LBRACE) := by decide
      simp only [hpe, Res.bind, hev, heof, ne_eq, hlb, not_false_eq_true, if_true]
      exact extends_run_cut _ _ c _ _ _ _
  · intro s1 _ heof1
    dsimp only
    have heof : s1.current_token.type = T_EOF := heof1
    have hlp : s1.current_token.type ≠ T_LPAREN := by rw [heof]; decide
    rw [if_pos hlp]
    exact extends_run_cut _ _ c _ _ _ _

theorem execute_extends (q : List Nat) (c : Nat) (hc : is_unknown c) (fuel : Nat) (s : State)
    (hs : s.current_token.type ≠ T_EOF) :
    extends_run id (extend_input (c :: q)) c (execute fuel s)
      (execute fuel (extend_input (c :: q) s)) := by
  induction fuel generalizing s with
  | zero => intro x hx; simp [execute] at hx
  | succ fuel ih =>
    have hstop : ∀ x : State, (id x).current_token.type = T_EOF →
        extends_run id (extend_input (c :: q)) c (execute fuel x)
          (.fail (.UnknownCharacter c) (id x).vars (id x).output) := by
      intro x hx
      have hx2 : x.current_token.type = T_EOF := hx
      cases fuel with
      | zero => intro y hy; cases hy
      | succ k =>
        have : execute (k + 1) x = .ok x := by simp [execute, hx2]
        rw [this]
        exact Or.inr ⟨hx2, rfl⟩
    unfold execute
    rw [extend_input_token, if_neg hs, if_neg hs]
    split
    · exact extends_run_bind id _ id _ c _ _ _ _ (execute_print_extends q c hc s)
        (fun x _ hx => ih x hx) (fun x _ hx => hstop x hx)
    · exact extends_run_bind id _ id _ c _ _ _ _ (execute_set_extends q c hc s)
        (fun x _ hx => ih x hx) (fun x _ hx => hstop x hx)
    · exact extends_run_bind id _ id _ c _ _ _ _
        (execute_loop_extends q c hc s _ _ _ _)
        (fun x _ hx => ih x hx) (fun x _ hx => hstop x hx)
    · exact extends_run_bind id _ id _ c _ _ _ _
        (execute_if_extends q c hc s _ _ _ _)
        (fun x _ hx => ih x hx) (fun x _ hx => hstop x hx)
    · exact extends_run_same _ _ c _ _ _

theorem interpret_extends (q : List Nat) (c : Nat) (hc : is_unknown c) (fuel : Nat)
    (a : List Nat) :
    extends_run id (extend_input (c :: q)) c (interpret fuel a)
      (interpret fuel (a ++ c :: q)) := by
  unfold interpret
  have hext : initial_state (a ++ c :: q) = extend_input (c :: q) (initial_state a) := rfl
  rw [hext]
  refine extends_run_bind id _ id _ c _ _ _ _ (advance_extends q c hc _)
    (fun x _ hx => execute_extends q c hc fuel x hx) ?_
  intro x _ hx
  have hx2 : x.current_token.type = T_EOF := hx
  cases fuel with
  | zero => intro y hy; cases hy
  | succ k =>
    have : execute (k + 1) x = .ok x := by simp [execute, hx2]
    rw [this]
    exact Or.inr ⟨hx2, rfl⟩

theorem interpret_ok_at_eof (fuel : Nat) (text : List Nat) (sf : State)
    (h : interpret fuel text = .ok sf) : sf.current_token.type = T_EOF := by
  unfold interpret at h
  cases ha : advance (initial_state text) with
  | ok s1 => rw [ha] at h; exact execute_ok_at_eof fuel s1 sf h
  | fail e v o => rw [ha] at h; simp [Res.bind] at h
  | timeout => rw [ha] at h; simp [Res.bind] at h

end Perry
